import Mathlib

/-!
A shallow embedding of the router matcher of this repository
(createRouterMatcher and its helper functions: addRoute, removeRoute,
insertMatcher, getRoutes, getRecordMatcher, resolve, paramsFromLocation,
normalizeRouteRecord, isAliasRecord, mergeMetaFields, mergeOptions,
isRecordChildOf).

The matcher stores a mutable graph of record matchers (parent, children and
alias cross references).  Following the design notes of the specification we
embed that graph as an arena: every matcher is a node addressed by a numeric
id, and the registry state carries the arena together with the ordered
sequence of inserted ids and the name table.  JavaScript objects (params,
meta bags, the name map) are embedded as association lists with the exact
override-in-place update semantics of Object.assign and Map.set.

The pattern compiler (createRouteRecordMatcher / tokensToParser /
comparePathParserScore) is not part of the source tree of this repository;
only its callers are.  Those parts are modelled from the specification and
are marked as such in their doc comments.
-/

deriving instance DecidableEq for Except

namespace VueRouterRV

/-- Values stored in a params object: a single decoded string for a singular
parameter, an ordered sequence of strings for a repeatable parameter. -/
inductive PValue : Type where
  | str (s : String)
  | arr (l : List String)
deriving DecidableEq, Repr

/-- A JavaScript object embedded as an association list with unique-key
update semantics.  Keys keep their first-insertion position. -/
abbrev AList (α : Type) := List (String × α)

/-- Reading a property of a JavaScript object: the first entry of the
association list whose key matches. -/
def aGet {α : Type} (m : AList α) (k : String) : Option α :=
  (m.find? (fun p => p.1 == k)).map (fun p => p.2)

/-- Writing a property of a JavaScript object: an existing key keeps its
position and gets the new value, a new key is appended. -/
def aSet {α : Type} (m : AList α) (k : String) (v : α) : AList α :=
  if m.any (fun p => p.1 == k) then
    m.map (fun p => if p.1 == k then (k, v) else p)
  else m ++ [(k, v)]

/-- Object.assign(target, source): every own property of the source is
written onto the target, in source order. -/
def aAssign {α : Type} (t src : AList α) : AList α :=
  src.foldl (fun acc p => aSet acc p.1 p.2) t

/-- Map.delete / removal of a property. -/
def aDel {α : Type} (m : AList α) (k : String) : AList α :=
  m.filter (fun p => p.1 != k)

/-- Params object of a matched location. -/
abbrev Params := AList PValue

/-- Meta bag of a route record. -/
abbrev MetaMap := AList String

/-- First character test (used for the leading separator and the parameter
marker). -/
def headIs (s : String) (c : Char) : Bool :=
  match s.data with
  | d :: _ => d == c
  | [] => false

/-- Last character test (used for modifier suffixes and the trailing
separator). -/
def lastIs (s : String) (c : Char) : Bool :=
  match s.data.getLast? with
  | some d => d == c
  | none => false

/-- All characters but the first. -/
def strTail (s : String) : String :=
  String.mk (s.data.drop 1)

/-- All characters but the last. -/
def strInit (s : String) : String :=
  String.mk s.data.dropLast

/-- Lower-casing of a string, character by character. -/
def strLower (s : String) : String :=
  String.mk (s.data.map Char.toLower)

/-- Splitting a character list at every occurrence of a separator
character; empty pieces are kept (the semantics of splitOn for a one
character separator). -/
def splitCh (sep : Char) : List Char → List (List Char)
  | [] => [[]]
  | c :: cs =>
      if c == sep then [] :: splitCh sep cs
      else
        match splitCh sep cs with
        | h :: t => (c :: h) :: t
        | [] => [[c]]

/-- Joining strings with the path separator. -/
def joinSep : List String → String
  | [] => ""
  | [v] => v
  | v :: vs => v ++ "/" ++ joinSep vs

/-- paramsFromLocation (source lines 368-379): keeps, in key-list order, the
entries of the params object whose key occurs in the given key list. -/
def paramsFromLocation (params : Params) (keys : List String) : Params :=
  keys.foldl
    (fun acc k =>
      match aGet params k with
      | some v => aSet acc k v
      | none => acc)
    []

/-- Parameter descriptor of a compiled pattern: name, optional flag,
repeatable flag (specification, section 4.1). -/
structure ParamKey where
  name : String
  optional : Bool
  repeatable : Bool
deriving DecidableEq, Repr

/-- Modelled from the spec: the pattern compiler (createRouteRecordMatcher /
tokensToParser is not under src).  A path is tokenized into alternating
static text and parameter tokens (section 4.1).  The model supports one
token per path segment: a fully static segment or a single parameter
segment; sub-segment mixing, custom regexps and percent decoding are
outside the modelled fragment. -/
inductive PathToken : Type where
  | static (text : String)
  | param (key : ParamKey)
deriving DecidableEq, Repr

/-- Modelled from the spec: tokenization of one path segment.  A parameter
token is a colon followed by the name, optionally suffixed with a question
mark (optional), an asterisk (optional repeatable) or a plus sign (required
repeatable); anything else is static text. -/
def parseSeg (seg : String) : PathToken :=
  if headIs seg ':' then
    let rest := strTail seg
    if lastIs rest '*' then .param ⟨strInit rest, true, true⟩
    else if lastIs rest '+' then .param ⟨strInit rest, false, true⟩
    else if lastIs rest '?' then .param ⟨strInit rest, true, false⟩
    else .param ⟨rest, false, false⟩
  else .static seg

/-- Modelled from the spec: tokenize a full path; consecutive separators are
normalized to a single separator boundary (section 4.1). -/
def tokenizePath (path : String) : List PathToken :=
  (((splitCh '/' path.data).map String.mk).filter (fun s => s ≠ "")).map parseSeg

/-- Per-record matching options (case sensitivity, trailing-slash
strictness, end anchoring). -/
structure PathOpts where
  strict : Bool
  sensitive : Bool
  endB : Bool
deriving DecidableEq, Repr

/-- The defaults merged by createRouterMatcher (source line 66-69). -/
def defaultOpts : PathOpts := ⟨false, false, true⟩

/-- Modelled from the spec: the specificity score of one token (section
4.1): a static segment scores higher than a dynamic one; a non-repeatable
dynamic segment scores higher than a repeatable one; an optional segment is
penalized. -/
def segScore (t : PathToken) : List Int :=
  match t with
  | .static _ => [80]
  | .param k =>
      [60 - (if k.repeatable then 20 else 0) - (if k.optional then 8 else 0)]

/-- Modelled from the spec: the score of a whole pattern, one entry per
segment, most significant first; the root pattern gets its own score; a
pattern that is not end-anchored is penalized (section 4.1). -/
def pathScore (tokens : List PathToken) (endB : Bool) : List (List Int) :=
  if tokens.isEmpty then [[90]]
  else tokens.map segScore ++ (if endB then [] else [[-10]])

/-- Modelled from the spec: compare two per-segment weight lists
left-to-right; on exhaustion the deeper one wins (section 4.2). -/
def cmpSeg : List Int → List Int → Int
  | x :: xs, y :: ys => if y - x ≠ 0 then y - x else cmpSeg xs ys
  | xs, ys => (ys.length : Int) - (xs.length : Int)

/-- Whether the last weight of a segment score is negative. -/
def segNeg : List Int → Bool
  | [] => false
  | [v] => decide (v < 0)
  | _ :: rest => segNeg rest

/-- Whether the last segment score of a pattern score ends in a negative
weight — true exactly for the trailing penalty entry of a pattern that is
not end-anchored. -/
def lastNeg : List (List Int) → Bool
  | [] => false
  | [seg] => segNeg seg
  | _ :: rest => lastNeg rest

/-- The left-to-right walk over the common prefix of two pattern scores:
the first nonzero segment comparison, or zero when the common prefix ties. -/
def cmpWalk : List (List Int) → List (List Int) → Int
  | x :: xs, y :: ys => if cmpSeg x y ≠ 0 then cmpSeg x y else cmpWalk xs ys
  | _, _ => 0

/-- Modelled from the spec: comparePathParserScore — segment scores are
compared left-to-right, most significant first; when the common prefix
ties and the lengths differ by one, a pattern whose score ends in the
negative penalty entry (a pattern that is not end-anchored) ranks less
specific than the other; remaining ties prefer more (deeper) segments.  A
negative result means the first pattern is more specific and sorts first
(sections 4.1 and 4.2). -/
def comparePathParserScore (a b : List (List Int)) : Int :=
  if cmpWalk a b ≠ 0 then cmpWalk a b
  else if (b.length : Int) - (a.length : Int) = 1 ∨
      (a.length : Int) - (b.length : Int) = 1 then
    if lastNeg a then 1
    else if lastNeg b then -1
    else (b.length : Int) - (a.length : Int)
  else (b.length : Int) - (a.length : Int)

/-- Modelled from the spec: static text comparison honouring the case
sensitivity option (section 4.1). -/
def eqSeg (sensitive : Bool) (t s : String) : Bool :=
  if sensitive then t == s else strLower t == strLower s

/-- Path split into segments, consecutive separators collapsed. -/
def pathSegs (p : String) : List String :=
  ((splitCh '/' p.data).map String.mk).filter (fun s => s ≠ "")

/-- Modelled from the spec: matching a token list against the segments of a
path (section 4.1).  A repeatable parameter consumes a greedy run of
segments and yields an ordered sequence of values; an unmatched optional
parameter is omitted from the params rather than set to empty; when the
pattern is not end anchored, leftover segments are allowed (prefix match). -/
def matchToks (sensitive endB : Bool) : List PathToken → List String → Option Params
  | [], segs => if segs.isEmpty || !endB then some [] else none
  | .static _ :: _, [] => none
  | .static t :: ts, sg :: segs =>
      if eqSeg sensitive t sg then matchToks sensitive endB ts segs else none
  | .param k :: ts, segs =>
      if k.repeatable then
        let low : Nat := if k.optional then 0 else 1
        (((List.range (segs.length + 1)).reverse).filter (fun j => low ≤ j)).findSome?
          (fun j =>
            (matchToks sensitive endB ts (segs.drop j)).map
              (fun ps => if j == 0 then ps else aSet ps k.name (.arr (segs.take j))))
      else
        match segs with
        | [] => if k.optional then matchToks sensitive endB ts [] else none
        | sg :: rest =>
            match matchToks sensitive endB ts rest with
            | some ps => some (aSet ps k.name (.str sg))
            | none =>
                if k.optional then matchToks sensitive endB ts (sg :: rest) else none

/-- Modelled from the spec: parse — applies the pattern; on failure returns
a no-match signal consumed by callers as try-next-candidate (section 4.1).
Trailing-slash strictness rejects a trailing separator on a non-root path. -/
def parseWith (tokens : List PathToken) (o : PathOpts) (p : String) : Option Params :=
  if o.strict && lastIs p '/' && p != "/" then none
  else matchToks o.sensitive o.endB tokens (pathSegs p)

/-- Modelled from the spec: stringify — the inverse of parse; fails when a
required parameter is missing or when a repeatable parameter does not
receive a sequence; repeatable values are joined with the separator; an
unmatched optional parameter contributes nothing (sections 4.1 and 7). -/
def stringifyToks : List PathToken → Params → Except String String
  | [], _ => .ok ""
  | .static t :: ts, p => (stringifyToks ts p).map (fun r => "/" ++ t ++ r)
  | .param k :: ts, p =>
      match aGet p k.name with
      | none =>
          if k.optional then stringifyToks ts p
          else .error ("missing required param " ++ k.name)
      | some (.str v) =>
          if k.repeatable then .error ("expected sequence value for " ++ k.name)
          else (stringifyToks ts p).map (fun r => "/" ++ v ++ r)
      | some (.arr vs) =>
          if k.repeatable then
            (stringifyToks ts p).map (fun r => "/" ++ joinSep vs ++ r)
          else .error ("unexpected sequence value for " ++ k.name)

/-- A raw route definition (RouteRecordRaw), carrying exactly the fields the
matcher reads: path, optional name, a single view component or a keyed view
slot object, redirect target, meta bag, alias path strings (absent or a
list), per-record matching options and nested children.  Components are
embedded as opaque numeric tags. -/
inductive RouteRecordRaw : Type where
  | mk : (path : String) → (name : Option String) → (component : Option Nat) →
      (components : Option (List (String × Nat))) → (redirect : Option String) →
      (meta : MetaMap) → (aliasPaths : Option (List String)) →
      (strictO : Option Bool) → (sensitiveO : Option Bool) → (endO : Option Bool) →
      (children : List RouteRecordRaw) → RouteRecordRaw

def RouteRecordRaw.path : RouteRecordRaw → String
  | .mk p _ _ _ _ _ _ _ _ _ _ => p

def RouteRecordRaw.name : RouteRecordRaw → Option String
  | .mk _ n _ _ _ _ _ _ _ _ _ => n

def RouteRecordRaw.component : RouteRecordRaw → Option Nat
  | .mk _ _ c _ _ _ _ _ _ _ _ => c

def RouteRecordRaw.components : RouteRecordRaw → Option (List (String × Nat))
  | .mk _ _ _ cs _ _ _ _ _ _ _ => cs

def RouteRecordRaw.redirect : RouteRecordRaw → Option String
  | .mk _ _ _ _ r _ _ _ _ _ _ => r

def RouteRecordRaw.meta : RouteRecordRaw → MetaMap
  | .mk _ _ _ _ _ m _ _ _ _ _ => m

def RouteRecordRaw.aliasPaths : RouteRecordRaw → Option (List String)
  | .mk _ _ _ _ _ _ a _ _ _ _ => a

def RouteRecordRaw.strictO : RouteRecordRaw → Option Bool
  | .mk _ _ _ _ _ _ _ s _ _ _ => s

def RouteRecordRaw.sensitiveO : RouteRecordRaw → Option Bool
  | .mk _ _ _ _ _ _ _ _ s _ _ => s

def RouteRecordRaw.endO : RouteRecordRaw → Option Bool
  | .mk _ _ _ _ _ _ _ _ _ e _ => e

def RouteRecordRaw.children : RouteRecordRaw → List RouteRecordRaw
  | .mk _ _ _ _ _ _ _ _ _ _ c => c

/-- A normalized route record (normalizeRouteRecord, source lines 387-408):
view slots always keyed by name (a single unnamed view becomes the slot
named default), meta defaulted to the empty bag, and an aliasOf back
reference.  In the arena embedding aliasOf holds the id of the matcher
owning the canonical record (none for canonical records); the source holds
the record object itself and only ever tests it for truthiness or reads its
components. -/
structure RouteRecordNorm where
  path : String
  name : Option String
  redirect : Option String
  meta : MetaMap
  components : Option (List (String × Nat))
  aliasOf : Option Nat
deriving DecidableEq, Repr

/-- normalizeRouteRecord (source lines 387-408), restricted to the fields
the matcher reads.  The components normalization: a keyed components object
is kept as is, otherwise a single component becomes the default slot, and a
record with neither has no view slots. -/
def normalizeRouteRecord (r : RouteRecordRaw) : RouteRecordNorm :=
  { path := r.path
    name := r.name
    redirect := r.redirect
    meta := r.meta
    components :=
      match r.components with
      | some cs => some cs
      | none => r.component.map (fun c => [("default", c)])
    aliasOf := none }

/-- mergeOptions (source lines 458-468) applied to the global options and
one record: a per-record option overrides the global default. -/
def mergeRecordOpts (g : PathOpts) (r : RouteRecordRaw) : PathOpts :=
  { strict := r.strictO.getD g.strict
    sensitive := r.sensitiveO.getD g.sensitive
    endB := r.endO.getD g.endB }

/-- A record matcher node of the arena: the normalized record, the compiled
pattern data (tokens, parameter keys, score, options — modelled from the
spec, section 3), and the graph links (parent id, owned children ids, alias
ids referring back to this node as canonical). -/
structure MatcherNode where
  record : RouteRecordNorm
  parent : Option Nat
  children : List Nat
  aliases : List Nat
  tokens : List PathToken
  keys : List ParamKey
  score : List (List Int)
  opts : PathOpts
deriving DecidableEq, Repr

/-- Modelled from the spec: compiling one normalized record into a record
matcher node (createRouteRecordMatcher is not under src; section 4.1 and
section 3 describe the compiled pattern and the graph links). -/
def mkNode (record : RouteRecordNorm) (parent : Option Nat) (o : PathOpts) : MatcherNode :=
  let toks := tokenizePath record.path
  { record := record
    parent := parent
    children := []
    aliases := []
    tokens := toks
    keys := toks.filterMap (fun t => match t with | .param k => some k | .static _ => none)
    score := pathScore toks o.endB
    opts := o }

/-- The fallback node used to make arena lookups total; reachable states
always contain the node a stored id refers to. -/
def defaultNode : MatcherNode :=
  mkNode { path := "", name := none, redirect := none, meta := [],
           components := none, aliasOf := none } none defaultOpts

/-- The registry state of createRouterMatcher: the arena of matcher nodes,
the ordered sequence of inserted matcher ids (the matchers array), the name
table (matcherMap) and the merged global options. -/
structure MatcherState where
  nodes : List (Nat × MatcherNode)
  matchers : List Nat
  matcherMap : AList Nat
  nextId : Nat
  gOpts : PathOpts
deriving DecidableEq, Repr

/-- The state of a freshly created matcher before any route is added. -/
def emptyState : MatcherState :=
  { nodes := [], matchers := [], matcherMap := [], nextId := 0, gOpts := defaultOpts }

def getNode (s : MatcherState) (i : Nat) : Option MatcherNode :=
  ((s.nodes.find? (fun p => p.1 == i)).map (fun p => p.2))

def getNodeD (s : MatcherState) (i : Nat) : MatcherNode :=
  (getNode s i).getD defaultNode

/-- The record of the node an id refers to, if the node exists. -/
def recordAt (s : MatcherState) (i : Nat) : Option RouteRecordNorm :=
  (getNode s i).map (fun n => n.record)

/-- The parent link of the node an id refers to, if the node exists. -/
def parentAt (s : MatcherState) (i : Nat) : Option (Option Nat) :=
  (getNode s i).map (fun n => n.parent)

/-- Appends a fresh node to the arena; the node gets the id nextId. -/
def addNode (s : MatcherState) (n : MatcherNode) : MatcherState :=
  { s with nodes := s.nodes ++ [(s.nextId, n)], nextId := s.nextId + 1 }

def updateNode (s : MatcherState) (i : Nat) (f : MatcherNode → MatcherNode) : MatcherState :=
  { s with nodes := s.nodes.map (fun p => if p.1 == i then (p.1, f p.2) else p) }

/-- Modelled from the spec: a freshly compiled matcher is linked into the
children sequence of its parent (section 3: children is the ordered
sequence of owned record matchers; section 4.3: addRoute links
parent/children/alias back references). -/
def pushChild (s : MatcherState) (parentId childId : Nat) : MatcherState :=
  updateNode s parentId (fun n => { n with children := n.children ++ [childId] })

/-- originalRecord.alias.push(matcher) (source lines 155-163). -/
def pushAlias (s : MatcherState) (origId aliasId : Nat) : MatcherState :=
  updateNode s origId (fun n => { n with aliases := n.aliases ++ [aliasId] })

def parseNode (n : MatcherNode) (p : String) : Option Params :=
  parseWith n.tokens n.opts p

/-- matcher.re.test(path): in the source the expression and parse share one
regular expression, so a path tests positive exactly when parse succeeds. -/
def reTest (n : MatcherNode) (p : String) : Bool :=
  (parseNode n p).isSome

/-- matcher.stringify(params); the root pattern stringifies to the bare
separator. -/
def stringifyNode (n : MatcherNode) (p : Params) : Except String String :=
  (stringifyToks n.tokens p).map (fun r => if r = "" then "/" else r)

/-- isAliasRecord (source lines 437-444): walks the parent chain looking
for a record with an aliasOf back reference.  The walk is bounded by a fuel
argument; ids strictly decrease along parent links in reachable states, so
the arena size bounds the walk. -/
def isAliasRecordF (s : MatcherState) : Nat → Option Nat → Bool
  | fuel + 1, some i =>
      (getNodeD s i).record.aliasOf.isSome || isAliasRecordF s fuel (getNodeD s i).parent
  | _, _ => false

def isAliasRecordB (s : MatcherState) (i : Nat) : Bool :=
  isAliasRecordF s s.nextId (some i)

/-- isRecordChildOf (source lines 537-544): whether a record is a strict
descendant of another in the parent/child tree, computed through the owned
children sequences.  Fuel-bounded like the alias walk. -/
def isRecordChildOfF (s : MatcherState) : Nat → Nat → Nat → Bool
  | fuel + 1, rid, pid =>
      (getNodeD s pid).children.any (fun c => c == rid || isRecordChildOfF s fuel rid c)
  | 0, _, _ => false

def isRecordChildOf (s : MatcherState) (rid pid : Nat) : Bool :=
  isRecordChildOfF s s.nextId rid pid

/-- The advance condition of the insertion loop of insertMatcher (source
lines 239-246): keep scanning while the comparator does not place the new
matcher strictly before the present one, unless the present one has the
same path and the new matcher is its descendant. -/
def advanceCond (s : MatcherState) (id x : Nat) : Bool :=
  (0 ≤ comparePathParserScore (getNodeD s id).score (getNodeD s x).score) &&
    ((getNodeD s id).record.path != (getNodeD s x).record.path ||
      ! isRecordChildOf s id x)

/-- The index the insertion loop of insertMatcher stops at. -/
def insertIdxAux (s : MatcherState) (id : Nat) : List Nat → Nat
  | [] => 0
  | x :: xs => if advanceCond s id x then insertIdxAux s id xs + 1 else 0

/-- Insertion of an element at a position of a list (splice(i, 0, x)). -/
def insertAt {α : Type} : Nat → α → List α → List α
  | 0, x, l => x :: l
  | _ + 1, x, [] => [x]
  | n + 1, x, a :: l => a :: insertAt n x l

/-- insertMatcher (source lines 236-253): ordered insertion into the
matchers sequence using the score comparator with the same-path
parent/child exception, then registration of the name of a canonical
(non-alias) named record in the name table. -/
def insertMatcher (s : MatcherState) (id : Nat) : MatcherState :=
  let i := insertIdxAux s id s.matchers
  let s1 := { s with matchers := insertAt i id s.matchers }
  match (getNodeD s1 id).record.name with
  | some nm =>
      if ! isAliasRecordB s1 id then { s1 with matcherMap := aSet s1.matcherMap nm id }
      else s1
  | none => s1

/-- matchers.splice(matchers.indexOf(matcher), 1) (source line 217): when
the element is present its first occurrence is removed; when indexOf yields
-1, splice(-1, 1) removes the last element of a nonempty array. -/
def spliceIndexOf (l : List Nat) (i : Nat) : List Nat :=
  if l.contains i then l.erase i else l.dropLast

/-- The matcher-reference branch of removeRoute (source lines 221-229):
nothing happens unless the matcher is present in the ordered sequence; when
present, it is removed from the sequence and the name table, then the
removal recurses into its children and aliases.  The recursion is
fuel-bounded; child and alias ids strictly exceed their owner id in
reachable states, so the arena size bounds the recursion depth. -/
def removeByMatcherF (s : MatcherState) : Nat → Nat → MatcherState
  | fuel + 1, i =>
      if s.matchers.contains i then
        let n := getNodeD s i
        let s1 : MatcherState :=
          { s with
            matchers := s.matchers.erase i
            matcherMap :=
              match n.record.name with
              | some nm => aDel s.matcherMap nm
              | none => s.matcherMap }
        let s2 := n.children.foldl (fun st c => removeByMatcherF st fuel c) s1
        n.aliases.foldl (fun st a => removeByMatcherF st fuel a) s2
      else s
  | 0, _ => s

/-- removeRoute called with a matcher reference. -/
def removeRouteByMatcher (s : MatcherState) (i : Nat) : MatcherState :=
  removeByMatcherF s s.nextId i

/-- The name branch of removeRoute (source lines 213-220): a name absent
from the table is a silent no-op; otherwise the entry is deleted, the
matcher is spliced out of the ordered sequence at its indexOf position, and
the removal recurses into children and aliases by reference. -/
def removeRouteByName (s : MatcherState) (nm : String) : MatcherState :=
  match aGet s.matcherMap nm with
  | none => s
  | some i =>
      let n := getNodeD s i
      let s1 : MatcherState :=
        { s with matcherMap := aDel s.matcherMap nm
                 matchers := spliceIndexOf s.matchers i }
      let s2 := n.children.foldl (fun st c => removeByMatcherF st s.nextId c) s1
      n.aliases.foldl (fun st a => removeByMatcherF st s.nextId a) s2

/-- The guard of source lines 194-199: only a matcher whose record has at
least one view slot, a name or a redirect is inserted into the searchable
ordered sequence. -/
def displayable (r : RouteRecordNorm) : Bool :=
  (match r.components with
   | some cs => !cs.isEmpty
   | none => false) || r.name.isSome || r.redirect.isSome

/-- Child path resolution of source lines 129-135: a child path not
starting with the separator is appended to the parent path with a single
connecting separator; an empty child path yields the parent path itself. -/
def resolveChildPath (parentPath p : String) : String :=
  if headIs p '/' then p
  else
    let cs := if lastIs parentPath '/' then "" else "/"
    parentPath ++ (if p = "" then "" else cs ++ p)

def addRouteStep
    (go : MatcherState → RouteRecordRaw → Option Nat → Option Nat →
      MatcherState × Option Nat)
    (record : RouteRecordRaw) (parentId originalId : Option Nat)
    (isRootAdd : Bool) (main : RouteRecordNorm) (opts : PathOpts)
    (acc : MatcherState × Option Nat × Option Nat) (item : Option String) :
    MatcherState × Option Nat × Option Nat :=
  let s0 := acc.1
  let origRec := acc.2.1
  let origMatcher := acc.2.2
  let nr0 : RouteRecordNorm :=
    match item with
    | none => main
    | some a =>
        { main with
          path := a
          aliasOf := some (originalId.getD (origRec.getD 0))
          components :=
            match originalId with
            | some o => (getNodeD s0 o).record.components
            | none => main.components }
  let fixedPath :=
    match parentId with
    | some pid => resolveChildPath (getNodeD s0 pid).record.path nr0.path
    | none => nr0.path
  let nr : RouteRecordNorm := { nr0 with path := fixedPath }
  let id := s0.nextId
  let s1 := addNode s0 (mkNode nr parentId opts)
  let s2 :=
    match parentId with
    | some pid => pushChild s1 pid id
    | none => s1
  let res3 : MatcherState × Option Nat :=
    match origRec with
    | some o => (pushAlias s2 o id, origMatcher)
    | none =>
        let om := origMatcher.getD id
        let s2a := if om ≠ id then pushAlias s2 om id else s2
        let s2b :=
          if isRootAdd && record.name.isSome && ! isAliasRecordB s2a id then
            removeRouteByName s2a (record.name.getD "")
          else s2a
        (s2b, some om)
  let s3 := res3.1
  let s4 :=
    record.children.enum.foldl
      (fun st pr =>
        (go st pr.2 (some id)
          (origRec.bind (fun o => (getNodeD st o).children.get? pr.1))).1)
      s3
  let origRec1 : Option Nat := some (origRec.getD id)
  let s5 := if displayable nr then insertMatcher s4 id else s4
  (s5, origRec1, res3.2)

/-- addRoute (source lines 75-210), fuel-bounded on the recursion into
nested children (each recursive call processes a structurally smaller raw
record, so the nesting depth of the raw record bounds the recursion).

For every raw record the loop (addRouteStep) processes the canonical
normalized record followed by one alias copy per alias path (the item
list: none is the canonical iteration, some a the alias path a).  Per
iteration it resolves a relative child path against the parent path,
compiles a fresh matcher node, links it to its parent, records alias back
references, performs the replace-by-name removal on a top-level named
non-alias addition, recurses into the children of the raw record
(propagating the positional alias linkage through the children of the
original matcher), and finally inserts the matcher into the searchable
sequence only when its record is displayable.  The returned id is the
canonical matcher used by the de-registration callback (none for a pure
alias addition, whose callback is a no-op). -/
def addRouteF : Nat → MatcherState → RouteRecordRaw → Option Nat → Option Nat →
    MatcherState × Option Nat
  | 0, s, _, _, _ => (s, none)
  | Nat.succ fuel, s, record, parentId, originalId =>
    let isRootAdd := originalId.isNone
    let main : RouteRecordNorm := { normalizeRouteRecord record with aliasOf := originalId }
    let opts := mergeRecordOpts s.gOpts record
    let items : List (Option String) := none :: (record.aliasPaths.getD []).map some
    let final := items.foldl
      (addRouteStep (fun st rec pId oId => addRouteF fuel st rec pId oId)
        record parentId originalId isRootAdd main opts)
      (s, originalId, none)
    (final.1, final.2.2)

mutual

/-- Nesting depth of a raw record, used as recursion fuel for addRoute:
every recursive call of addRoute processes a child of the current raw
record, so the depth bounds the recursion. -/
def rawFuel : RouteRecordRaw → Nat
  | .mk _ _ _ _ _ _ _ _ _ _ children => rawFuelL children + 1

/-- Largest nesting depth of a list of raw records. -/
def rawFuelL : List RouteRecordRaw → Nat
  | [] => 0
  | c :: cs => max (rawFuel c) (rawFuelL cs)

end

/-- The public addRoute of the matcher: a top-level or parented addition of
a raw record, never an alias continuation.  The returned id feeds the
de-registration callback, which is removeRoute on that matcher reference. -/
def addRoute (s : MatcherState) (record : RouteRecordRaw) (parentId : Option Nat) :
    MatcherState × Option Nat :=
  addRouteF (rawFuel record) s record parentId none

/-- getRoutes (source lines 232-234) returns the matchers array itself: the
live ordered sequence of the registry, not a copy. -/
def getRoutes (s : MatcherState) : List Nat :=
  s.matchers

/-- getRecordMatcher (source lines 71-73). -/
def getRecordMatcher (s : MatcherState) (nm : String) : Option Nat :=
  aGet s.matcherMap nm

/-- getRoutes as a state transformer, to express that the accessor has no
side effect on the registry: the state component of the result is the
input state itself. -/
def getRoutesOp (s : MatcherState) : MatcherState × List Nat :=
  (s, getRoutes s)

/-- getRecordMatcher as a state transformer, to express that the accessor
has no side effect on the registry. -/
def getRecordMatcherOp (s : MatcherState) (nm : String) : MatcherState × Option Nat :=
  (s, getRecordMatcher s nm)

/-- The three mutually exclusive request shapes the resolver accepts: by
name, by literal path, or relative to the current location (neither name
nor path supplied). -/
inductive MatcherLocationRaw : Type where
  | byName (name : String) (params : Option Params)
  | byPath (path : String) (params : Option Params)
  | relative (params : Option Params)
deriving DecidableEq, Repr

/-- The resolver result and the shape of the current location: name, path,
params, matched chain of normalized records (root first), merged meta. -/
structure MatcherLocation where
  name : Option String
  path : String
  params : Params
  matched : List RouteRecordNorm
  meta : MetaMap
deriving DecidableEq, Repr

/-- The two synchronous failures resolve can surface: MatcherNotFound
(createRouterError at source lines 267-270 and 331-335) and a
stringification failure propagated from stringify. -/
inductive ResolveErr : Type where
  | matcherNotFound
  | stringifyFail (msg : String)
deriving DecidableEq, Repr

/-- The matched chain walk of resolve (source lines 343-350): parent
references are followed upward from the target matcher and every record is
prepended, producing root-to-leaf order.  Fuel-bounded like the other
parent walks. -/
def ancestorChainF (s : MatcherState) : Nat → Option Nat → List RouteRecordNorm
  | fuel + 1, some i =>
      ancestorChainF s fuel (getNodeD s i).parent ++ [(getNodeD s i).record]
  | _, _ => []

def ancestorChain (s : MatcherState) (i : Nat) : List RouteRecordNorm :=
  ancestorChainF s s.nextId (some i)

/-- mergeMetaFields (source lines 451-456): the meta bags of the matched
records are folded left-to-right, root first, onto an empty bag. -/
def mergeMetaFields (matched : List RouteRecordNorm) : MetaMap :=
  matched.foldl (fun acc r => aAssign acc r.meta) []

/-- resolve (source lines 255-360).  By name: name-table lookup, raising
MatcherNotFound on a miss, then the params merge of non-optional current
params with the supplied params restricted to the declared keys, then
stringification (whose failure is raised).  By literal path: the first
matcher of the ordered sequence whose expression tests positive supplies
name and parsed params, and a miss yields an ok location with the raw path,
empty params and an empty matched chain.  Relative: the current location is
re-located by its name when it has one, else by re-matching its path,
raising MatcherNotFound on a miss; supplied params are merged over the
current params and the path is re-stringified. -/
def resolve (s : MatcherState) (loc : MatcherLocationRaw) (cur : MatcherLocation) :
    Except ResolveErr MatcherLocation :=
  match loc with
  | .byName n lp =>
      match aGet s.matcherMap n with
      | none => .error .matcherNotFound
      | some mid =>
          let m := getNodeD s mid
          let ps : Params :=
            aAssign
              (paramsFromLocation cur.params
                ((m.keys.filter (fun k => ! k.optional)).map (fun k => k.name)))
              (match lp with
               | some pp => paramsFromLocation pp (m.keys.map (fun k => k.name))
               | none => [])
          match stringifyNode m ps with
          | .error e => .error (.stringifyFail e)
          | .ok path =>
              let matched := ancestorChain s mid
              .ok { name := m.record.name, path := path, params := ps,
                    matched := matched, meta := mergeMetaFields matched }
  | .byPath p _ =>
      match s.matchers.find? (fun i => reTest (getNodeD s i) p) with
      | some mid =>
          let m := getNodeD s mid
          let matched := ancestorChain s mid
          .ok { name := m.record.name, path := p,
                params := (parseNode m p).getD [],
                matched := matched, meta := mergeMetaFields matched }
      | none =>
          .ok { name := none, path := p, params := [], matched := [], meta := [] }
  | .relative lp =>
      let found : Option Nat :=
        match cur.name with
        | some n => aGet s.matcherMap n
        | none => s.matchers.find? (fun i => reTest (getNodeD s i) cur.path)
      match found with
      | none => .error .matcherNotFound
      | some mid =>
          let m := getNodeD s mid
          let ps : Params := aAssign (aAssign [] cur.params) (lp.getD [])
          match stringifyNode m ps with
          | .error e => .error (.stringifyFail e)
          | .ok path =>
              let matched := ancestorChain s mid
              .ok { name := m.record.name, path := path, params := ps,
                    matched := matched, meta := mergeMetaFields matched }

/-- The matcher the resolver selects, per request shape: the specification
side description of which record matcher a resolve call locates. -/
def selectMatcher (s : MatcherState) (loc : MatcherLocationRaw) (cur : MatcherLocation) :
    Option Nat :=
  match loc with
  | .byName n _ => aGet s.matcherMap n
  | .byPath p _ => s.matchers.find? (fun i => reTest (getNodeD s i) p)
  | .relative _ =>
      match cur.name with
      | some n => aGet s.matcherMap n
      | none => s.matchers.find? (fun i => reTest (getNodeD s i) cur.path)

/-- Keys of an embedded JavaScript object. -/
def keysOf {α : Type} (m : AList α) : List String :=
  m.map Prod.fst

/-- Arena well-formedness: every node id stored in the arena is below the
id counter (true of every state reachable from the empty registry). -/
def NodesWf (s : MatcherState) : Prop :=
  ∀ p ∈ s.nodes, p.1 < s.nextId

/-- What a run of addRoute does to the registry, relative to the state it
started from: the id counter only grows, the records and parent links of
previously existing nodes are untouched, and every id present in the
searchable ordered sequence afterwards either was present before or is a
freshly created matcher whose record is displayable (has view slots, a
name or a redirect).  This packages the claim that a matcher without a
render target is never inserted into the searchable sequence. -/
def AddEvo (base t : MatcherState) : Prop :=
  base.nextId ≤ t.nextId ∧
  (∀ i, i < base.nextId → recordAt t i = recordAt base i) ∧
  (∀ i, i < base.nextId → parentAt t i = parentAt base i) ∧
  (∀ i, i ∈ t.matchers → i ∈ base.matchers ∨
    (base.nextId ≤ i ∧ i < t.nextId ∧
      ∃ r, recordAt t i = some r ∧ displayable r = true))

/-- Helper for building raw records in the concrete scenarios below. -/
def rr (path : String) (name : Option String := none) (component : Option Nat := none)
    (children : List RouteRecordRaw := []) (aliasPaths : Option (List String) := none)
    (redirect : Option String := none) (meta : MetaMap := []) : RouteRecordRaw :=
  .mk path name component none redirect meta aliasPaths none none none children

/-- Concrete scenario B of the specification (section 8): a group at /a
with an empty-path named child and a named child b. -/
def recB : RouteRecordRaw :=
  rr "/a" none (some 9) [rr "" (some "a-home") (some 1), rr "b" (some "a-b") (some 2)]

/-- Registry holding scenario B; ids: 0 the group, 1 a-home, 2 a-b. -/
def sB : MatcherState := (addRoute emptyState recB none).1

/-- A named route /p whose child g is a pass-through grouping node (no view
slots, no name, no redirect) with a named grandchild k. -/
def recP : RouteRecordRaw :=
  rr "/p" (some "p") (some 0) [rr "g" none none [rr "k" (some "k") (some 1)]]

/-- Registry holding recP; ids: 0 the record p, 1 the pass-through g, 2 the
grandchild k. -/
def sP : MatcherState := (addRoute emptyState recP none).1

/-- sP after removeRoute by the name p. -/
def sP2 : MatcherState := removeRouteByName sP "p"

/-- A second top-level record registered under the same name p. -/
def recN : RouteRecordRaw := rr "/new" (some "p") (some 2)

/-- sP after the top-level re-registration of the name p (id 3 is the new
matcher). -/
def sP3 : MatcherState := (addRoute sP recN none).1

/-- Concrete scenario A of the specification (section 8). -/
def recU : RouteRecordRaw := rr "/users/:id" (some "user") (some 3)

/-- Registry holding only /users/:id named user (id 0). -/
def sU : MatcherState := (addRoute emptyState recU none).1

/-- A pass-through root /g (no view slots, no name, no redirect) whose
child is inserted. -/
def recG : RouteRecordRaw := rr "/g" none none [rr "child" (some "c") (some 4)]

/-- Registry holding recG; the root id 0 is not inserted, the child id 1
is. -/
def sG : MatcherState := (addRoute emptyState recG none).1

/-- A single unnamed matchable route /x. -/
def recX : RouteRecordRaw := rr "/x" none (some 5)

/-- Registry holding only /x (id 0, unnamed). -/
def sX : MatcherState := (addRoute emptyState recX none).1

/-- A current location whose name is stale (absent from the name table of
sX) but whose path still matches the registered matcher of sX. -/
def curStale : MatcherLocation :=
  { name := some "gone", path := "/x", params := [], matched := [], meta := [] }

/-- A plain current location at the root. -/
def curRoot : MatcherLocation :=
  { name := none, path := "/", params := [], matched := [], meta := [] }

/-- An end-anchored record /e with a view slot, for the same-path
descendant insertion scenario. -/
def recE : RouteRecordRaw := rr "/e" (some "e") (some 5)

/-- Registry holding only /e (id 0). -/
def sE1 : MatcherState := (addRoute emptyState recE none).1

/-- A child with the empty path (resolving to the parent path /e) whose
per-record end option is false, so its compiled score carries the trailing
penalty entry and ranks strictly less specific than the parent pattern. -/
def recEc : RouteRecordRaw :=
  .mk "" (some "ek") (some 6) none none [] none none none (some false) []

/-- sE1 after adding recEc as a child of matcher 0: the same-path
descendant 1 stops the insertion scan and is placed before its ancestor 0
in the ordered sequence although it ranks strictly less specific. -/
def sE : MatcherState := (addRoute sE1 recEc (some 0)).1

/-- A named record /d whose child /d/dc carries a view slot and is
therefore present in the ordered sequence. -/
def recD : RouteRecordRaw :=
  rr "/d" (some "d") (some 1) [rr "dc" (some "dc") (some 2)]

/-- Registry holding recD; ids: 0 the record d, 1 the child dc. -/
def sD : MatcherState := (addRoute emptyState recD none).1

/-- A second top-level record registered under the same name d. -/
def recD2 : RouteRecordRaw := rr "/d2" (some "d") (some 3)

/-- sD after the top-level re-registration of the name d (id 2 is the new
matcher): the old matcher 0 and its sequence-present child 1 are both
removed from the ordered sequence. -/
def sD2 : MatcherState := (addRoute sD recD2 none).1

/-- The location resolved by name user with params id 42 on the registry
sU (concrete scenario A of the specification, section 8). -/
def rUval : MatcherLocation :=
  { name := some "user", path := "/users/42", params := [("id", .str "42")],
    matched := [{ path := "/users/:id", name := some "user", redirect := none,
                  meta := [], components := some [("default", 3)], aliasOf := none }],
    meta := [] }

section AListLemmas

variable {α : Type}

theorem aGet_nil (k : String) : aGet ([] : AList α) k = none := rfl

theorem aGet_cons (k0 : String) (v0 : α) (m : AList α) (k : String) :
    aGet ((k0, v0) :: m) k = if k0 == k then some v0 else aGet m k := by
  by_cases h : k0 = k
  · subst h; simp [aGet, List.find?_cons]
  · simp [aGet, List.find?_cons, beq_eq_false_iff_ne.mpr h]

theorem aGet_eq_none_of_any_false (m : AList α) (k : String)
    (h : (m.any (fun p => p.1 == k)) = false) : aGet m k = none := by
  induction m with
  | nil => rfl
  | cons p m ih =>
      simp only [List.any_cons, Bool.or_eq_false_iff] at h
      simp only [aGet, List.find?_cons, h.1]
      exact ih h.2

theorem aGet_mapSet_self (m : AList α) (k : String) (v : α)
    (h : (m.any (fun p => p.1 == k)) = true) :
    aGet (m.map (fun p => if p.1 == k then (k, v) else p)) k = some v := by
  induction m with
  | nil => simp at h
  | cons p m ih =>
      by_cases hp : p.1 = k
      · simp [aGet, List.find?_cons, hp]
      · have hb : (p.1 == k) = false := beq_eq_false_iff_ne.mpr hp
        simp only [List.any_cons, hb, Bool.false_or] at h
        simp only [List.map_cons, hb, Bool.false_eq_true, if_false]
        simp only [aGet, List.find?_cons, hb] at ih ⊢
        exact ih h

theorem aGet_mapSet_ne (m : AList α) (k k' : String) (v : α) (h : k' ≠ k) :
    aGet (m.map (fun p => if p.1 == k then (k, v) else p)) k' = aGet m k' := by
  induction m with
  | nil => rfl
  | cons p m ih =>
      by_cases hp : p.1 = k
      · have hb : (p.1 == k) = true := beq_iff_eq.mpr hp
        have hk : (k == k') = false := beq_eq_false_iff_ne.mpr (fun e => h e.symm)
        have hp' : (p.1 == k') = false := by
          rw [hp]; exact hk
        simp only [List.map_cons, hb, if_true, aGet, List.find?_cons, hk, hp']
        exact ih
      · have hb : (p.1 == k) = false := beq_eq_false_iff_ne.mpr hp
        simp only [List.map_cons, hb, Bool.false_eq_true, if_false]
        by_cases hp' : p.1 = k'
        · simp [aGet, List.find?_cons, hp']
        · have hb' : (p.1 == k') = false := beq_eq_false_iff_ne.mpr hp'
          simp only [aGet, List.find?_cons, hb']
          exact ih

theorem aGet_append_single (m : AList α) (k k' : String) (v : α) :
    aGet (m ++ [(k, v)]) k' = (aGet m k').or (if k == k' then some v else none) := by
  induction m with
  | nil =>
      by_cases h : k = k'
      · simp [aGet, List.find?_cons, h]
      · simp [aGet, List.find?_cons, beq_eq_false_iff_ne.mpr h]
  | cons p m ih =>
      by_cases hp : p.1 = k'
      · simp [aGet, List.find?_cons, hp]
      · have hb : (p.1 == k') = false := beq_eq_false_iff_ne.mpr hp
        simp only [List.cons_append, aGet, List.find?_cons, hb]
        exact ih

theorem aGet_aSet (m : AList α) (k k' : String) (v : α) :
    aGet (aSet m k v) k' = if k == k' then some v else aGet m k' := by
  unfold aSet
  cases hany : (m.any (fun p => p.1 == k)) with
  | true =>
      simp only [if_true]
      by_cases h : k = k'
      · subst h; rw [aGet_mapSet_self m k v hany]; simp
      · rw [aGet_mapSet_ne m k k' v (fun e => h e.symm)]
        simp [beq_eq_false_iff_ne.mpr h]
  | false =>
      simp only [Bool.false_eq_true, if_false]
      rw [aGet_append_single]
      by_cases h : k = k'
      · subst h
        rw [aGet_eq_none_of_any_false m k hany]
        simp
      · simp [beq_eq_false_iff_ne.mpr h]

theorem aGet_aSet_self (m : AList α) (k : String) (v : α) :
    aGet (aSet m k v) k = some v := by
  rw [aGet_aSet]; simp

theorem aGet_aSet_ne (m : AList α) (k k' : String) (v : α) (h : k' ≠ k) :
    aGet (aSet m k v) k' = aGet m k' := by
  rw [aGet_aSet]; simp [beq_eq_false_iff_ne.mpr (fun e => h e.symm)]

theorem aGet_aDel_self (m : AList α) (k : String) : aGet (aDel m k) k = none := by
  induction m with
  | nil => rfl
  | cons p m ih =>
      by_cases hp : p.1 = k
      · simp [aDel, List.filter_cons, bne, beq_iff_eq.mpr hp]
        simpa [aDel] using ih
      · have hb : (p.1 == k) = false := beq_eq_false_iff_ne.mpr hp
        simp [aDel, List.filter_cons, bne, hb, aGet, List.find?_cons,
          show aGet (aDel m k) k = none from ih, aDel, aGet]

theorem aGet_aDel_ne (m : AList α) (k k' : String) (h : k' ≠ k) :
    aGet (aDel m k) k' = aGet m k' := by
  induction m with
  | nil => rfl
  | cons p m ih =>
      by_cases hp : p.1 = k
      · have hb' : (p.1 == k') = false :=
          beq_eq_false_iff_ne.mpr (by rw [hp]; exact fun e => h e.symm)
        simpa [aDel, List.filter_cons, bne, beq_iff_eq.mpr hp, aGet,
          List.find?_cons, hb'] using ih
      · have hb : (p.1 == k) = false := beq_eq_false_iff_ne.mpr hp
        by_cases hp' : p.1 = k'
        · simp [aDel, List.filter_cons, bne, hb, aGet, List.find?_cons, hp', h]
        · have hb' : (p.1 == k') = false := beq_eq_false_iff_ne.mpr hp'
          simpa [aDel, List.filter_cons, bne, hb, aGet, List.find?_cons, hb'] using ih

theorem aGet_aDel_none (m : AList α) (k k' : String) (h : aGet m k' = none) :
    aGet (aDel m k) k' = none := by
  by_cases hk : k' = k
  · subst hk; exact aGet_aDel_self m k'
  · rw [aGet_aDel_ne m k k' hk]; exact h

theorem mem_keysOf_aSet (m : AList α) (k k' : String) (v : α)
    (h : k' ∈ keysOf (aSet m k v)) : k' ∈ keysOf m ∨ k' = k := by
  unfold aSet at h
  split at h
  · unfold keysOf at h
    rw [List.map_map] at h
    obtain ⟨p, hp, hval⟩ := List.mem_map.mp h
    by_cases hpk : p.1 = k
    · right
      simpa [Function.comp, beq_iff_eq.mpr hpk] using hval.symm
    · left
      have hb : (p.1 == k) = false := beq_eq_false_iff_ne.mpr hpk
      simp only [Function.comp, hb, Bool.false_eq_true, if_false] at hval
      exact List.mem_map.mpr ⟨p, hp, hval⟩
  · unfold keysOf at h
    rw [List.map_append] at h
    rcases List.mem_append.mp h with h1 | h1
    · exact Or.inl h1
    · right; simpa using h1

theorem aGet_eq_none_of_not_mem_keysOf (m : AList α) (k : String)
    (h : k ∉ keysOf m) : aGet m k = none := by
  apply aGet_eq_none_of_any_false
  cases hany : (m.any (fun p => p.1 == k)) with
  | true =>
      obtain ⟨p, hp, hpk⟩ := List.any_eq_true.mp hany
      exact absurd (List.mem_map.mpr ⟨p, hp, beq_iff_eq.mp hpk⟩) h
  | false => rfl

theorem mem_keysOf_aAssign (t src : AList α) (k : String)
    (h : k ∈ keysOf (aAssign t src)) : k ∈ keysOf t ∨ k ∈ keysOf src := by
  induction src generalizing t with
  | nil => exact Or.inl h
  | cons p src ih =>
      unfold aAssign at h
      rw [List.foldl_cons] at h
      rcases ih (aSet t p.1 p.2) h with h1 | h1
      · rcases mem_keysOf_aSet t p.1 k p.2 h1 with h2 | h2
        · exact Or.inl h2
        · right; subst h2; exact List.mem_map.mpr ⟨p, List.mem_cons_self p src, rfl⟩
      · right
        unfold keysOf at h1 ⊢
        simpa using Or.inr h1

theorem mem_keysOf_paramsFromLocation (p : Params) (ks : List String) (k : String)
    (h : k ∈ keysOf (paramsFromLocation p ks)) : k ∈ ks := by
  unfold paramsFromLocation at h
  suffices H : ∀ (acc : Params), k ∈ keysOf (ks.foldl
      (fun acc k => match aGet p k with | some v => aSet acc k v | none => acc) acc) →
      k ∈ keysOf acc ∨ k ∈ ks by
    rcases H [] h with h1 | h1
    · simp [keysOf] at h1
    · exact h1
  clear h
  induction ks with
  | nil => intro acc h; exact Or.inl h
  | cons x ks ih =>
      intro acc h
      rw [List.foldl_cons] at h
      cases hx : aGet p x with
      | some v =>
          rw [hx] at h
          rcases ih (aSet acc x v) h with h1 | h1
          · rcases mem_keysOf_aSet acc x k v h1 with h2 | h2
            · exact Or.inl h2
            · right; rw [h2]; exact List.mem_cons_self x ks
          · right; exact List.mem_cons_of_mem x h1
      | none =>
          rw [hx] at h
          rcases ih acc h with h1 | h1
          · exact Or.inl h1
          · right; exact List.mem_cons_of_mem x h1

theorem aGet_aAssign_nodup (t src : AList α) (k : String)
    (h : (keysOf src).Nodup) :
    aGet (aAssign t src) k =
      match aGet src k with
      | some v => some v
      | none => aGet t k := by
  induction src generalizing t with
  | nil => rfl
  | cons p src ih =>
      unfold aAssign at ih ⊢
      rw [List.foldl_cons]
      unfold keysOf at h
      rw [List.map_cons, List.nodup_cons] at h
      rw [ih (aSet t p.1 p.2) h.2]
      by_cases hk : p.1 = k
      · subst hk
        have hsrc : aGet src p.1 = none :=
          aGet_eq_none_of_not_mem_keysOf src p.1 h.1
        rw [hsrc, aGet_cons]
        simp [aGet_aSet_self]
      · rw [aGet_cons]
        have hb : (p.1 == k) = false := beq_eq_false_iff_ne.mpr hk
        rw [hb]
        cases hs : aGet src k with
        | some v => simp
        | none => simp [aGet_aSet_ne t p.1 k p.2 (fun e => hk e.symm)]

theorem aGet_mergeMeta_fold (l : List MetaMap) (init : MetaMap) (k : String)
    (h : ∀ x ∈ l, (keysOf x).Nodup) :
    aGet (l.foldl aAssign init) k =
      match l.reverse.findSome? (fun x => aGet x k) with
      | some v => some v
      | none => aGet init k := by
  induction l generalizing init with
  | nil => rfl
  | cons x xs ih =>
      rw [List.foldl_cons]
      rw [ih (aAssign init x) (fun y hy => h y (List.mem_cons_of_mem x hy))]
      rw [List.reverse_cons, List.findSome?_append]
      have hx : List.findSome? (fun x => aGet x k) [x] = aGet x k := by
        simp only [List.findSome?]
        cases aGet x k <;> simp [List.findSome?]
      rw [hx]
      rw [aGet_aAssign_nodup init x k (h x (List.mem_cons_self x xs))]
      cases hfs : List.findSome? (fun x => aGet x k) xs.reverse with
      | some v => simp
      | none =>
          simp only [Option.none_or]
          cases aGet x k <;> rfl

end AListLemmas

section RemovalLemmas

/-- Shape of the invariants preserved by the removal operations: the arena,
the id counter and the global options are untouched. -/
theorem removeByMatcherF_arena (fuel : Nat) :
    ∀ (i : Nat) (s : MatcherState),
      (removeByMatcherF s fuel i).nodes = s.nodes ∧
      (removeByMatcherF s fuel i).nextId = s.nextId ∧
      (removeByMatcherF s fuel i).gOpts = s.gOpts := by
  induction fuel with
  | zero => intro i s; exact ⟨rfl, rfl, rfl⟩
  | succ f ih =>
      have fold : ∀ (l : List Nat) (s : MatcherState),
          ((l.foldl (fun st c => removeByMatcherF st f c) s).nodes = s.nodes ∧
           (l.foldl (fun st c => removeByMatcherF st f c) s).nextId = s.nextId ∧
           (l.foldl (fun st c => removeByMatcherF st f c) s).gOpts = s.gOpts) := by
        intro l
        induction l with
        | nil => intro s; exact ⟨rfl, rfl, rfl⟩
        | cons c cs ihl =>
            intro s
            rw [List.foldl_cons]
            obtain ⟨h1, h2, h3⟩ := ihl (removeByMatcherF s f c)
            obtain ⟨g1, g2, g3⟩ := ih c s
            exact ⟨h1.trans g1, h2.trans g2, h3.trans g3⟩
      intro i s
      show ((removeByMatcherF s (f + 1) i).nodes = s.nodes ∧ _ ∧ _)
      unfold removeByMatcherF
      split
      · obtain ⟨h1, h2, h3⟩ := fold (getNodeD s i).aliases _
        obtain ⟨g1, g2, g3⟩ := fold (getNodeD s i).children _
        exact ⟨h1.trans g1, h2.trans g2, h3.trans g3⟩
      · exact ⟨rfl, rfl, rfl⟩

/-- The removal recursion only ever shrinks the ordered sequence. -/
theorem removeByMatcherF_sublist (fuel : Nat) :
    ∀ (i : Nat) (s : MatcherState),
      List.Sublist (removeByMatcherF s fuel i).matchers s.matchers := by
  induction fuel with
  | zero => intro i s; exact List.Sublist.refl _
  | succ f ih =>
      have fold : ∀ (l : List Nat) (s : MatcherState),
          List.Sublist ((l.foldl (fun st c => removeByMatcherF st f c) s).matchers)
            s.matchers := by
        intro l
        induction l with
        | nil => intro s; exact List.Sublist.refl _
        | cons c cs ihl =>
            intro s
            rw [List.foldl_cons]
            exact (ihl (removeByMatcherF s f c)).trans (ih c s)
      intro i s
      unfold removeByMatcherF
      split
      · exact ((fold _ _).trans (fold _ _)).trans (List.erase_sublist i s.matchers)
      · exact List.Sublist.refl _

/-- The removal recursion never introduces name-table entries. -/
theorem removeByMatcherF_map_none (fuel : Nat) :
    ∀ (i : Nat) (s : MatcherState) (nm : String),
      aGet s.matcherMap nm = none →
      aGet (removeByMatcherF s fuel i).matcherMap nm = none := by
  induction fuel with
  | zero => intro i s nm h; exact h
  | succ f ih =>
      have fold : ∀ (l : List Nat) (s : MatcherState) (nm : String),
          aGet s.matcherMap nm = none →
          aGet ((l.foldl (fun st c => removeByMatcherF st f c) s).matcherMap) nm = none := by
        intro l
        induction l with
        | nil => intro s nm h; exact h
        | cons c cs ihl =>
            intro s nm h
            rw [List.foldl_cons]
            exact ihl _ nm (ih c s nm h)
      intro i s nm h
      unfold removeByMatcherF
      split
      · apply fold
        apply fold
        show aGet (match (getNodeD s i).record.name with
          | some nm => aDel s.matcherMap nm
          | none => s.matcherMap) nm = none
        cases (getNodeD s i).record.name with
        | some nm2 => exact aGet_aDel_none s.matcherMap nm2 nm h
        | none => exact h
      · exact h

/-- Removing a matcher that occurs at most once removes it for good. -/
theorem removeByMatcherF_self (f : Nat) (c : Nat) (s : MatcherState)
    (h : s.matchers.count c ≤ 1) :
    c ∉ (removeByMatcherF s (f + 1) c).matchers := by
  unfold removeByMatcherF
  split
  · rename_i hc
    have hmem : c ∈ s.matchers := by simpa using hc
    have hcount : s.matchers.count c = 1 :=
      le_antisymm h (List.count_pos_iff.mpr hmem)
    have herase : (s.matchers.erase c).count c = 0 := by
      rw [List.count_erase_self, hcount]
    have hout : c ∉ s.matchers.erase c := List.count_eq_zero.mp herase
    intro hmem2
    apply hout
    have sub1 := removeByMatcherF_sublist f
    have fold : ∀ (l : List Nat) (st : MatcherState),
        List.Sublist ((l.foldl (fun st c => removeByMatcherF st f c) st).matchers)
          st.matchers := by
      intro l
      induction l with
      | nil => intro st; exact List.Sublist.refl _
      | cons x xs ihl =>
          intro st
          rw [List.foldl_cons]
          exact (ihl (removeByMatcherF st f x)).trans (sub1 x st)
    exact ((fold _ _).trans (fold _ _)).subset hmem2
  · rename_i hc
    intro hmem
    exact hc (by simpa using hmem)

/-- Folding the removal over a list removes every listed matcher that
occurred at most once. -/
theorem removeByMatcherF_foldAbsent (f : Nat) :
    ∀ (l : List Nat) (s : MatcherState) (c : Nat), c ∈ l →
      s.matchers.count c ≤ 1 →
      c ∉ ((l.foldl (fun st x => removeByMatcherF st (f + 1) x) s).matchers) := by
  intro l
  induction l with
  | nil => intro s c hc; exact absurd hc (List.not_mem_nil c)
  | cons x xs ih =>
      intro s c hc hcount
      rw [List.foldl_cons]
      rcases List.mem_cons.mp hc with he | hm
      · subst he
        have habs : c ∉ (removeByMatcherF s (f + 1) c).matchers :=
          removeByMatcherF_self f c s hcount
        intro hmem
        apply habs
        have fold : ∀ (l2 : List Nat) (st : MatcherState),
            List.Sublist
              ((l2.foldl (fun st x => removeByMatcherF st (f + 1) x) st).matchers)
              st.matchers := by
          intro l2
          induction l2 with
          | nil => intro st; exact List.Sublist.refl _
          | cons y ys ihl =>
              intro st
              rw [List.foldl_cons]
              exact (ihl _).trans (removeByMatcherF_sublist (f + 1) y st)
        exact (fold _ _).subset hmem
      · apply ih _ c hm
        calc (removeByMatcherF s (f + 1) x).matchers.count c
            ≤ s.matchers.count c := (removeByMatcherF_sublist (f + 1) x s).count_le c
          _ ≤ 1 := hcount

theorem removeFold_sublist (fuel : Nat) (l : List Nat) (s : MatcherState) :
    List.Sublist ((l.foldl (fun st c => removeByMatcherF st fuel c) s).matchers)
      s.matchers := by
  induction l generalizing s with
  | nil => exact List.Sublist.refl _
  | cons c cs ih =>
      rw [List.foldl_cons]
      exact (ih _).trans (removeByMatcherF_sublist fuel c s)

theorem removeFold_map_none (fuel : Nat) (l : List Nat) (s : MatcherState) (nm : String)
    (h : aGet s.matcherMap nm = none) :
    aGet ((l.foldl (fun st c => removeByMatcherF st fuel c) s).matcherMap) nm = none := by
  induction l generalizing s with
  | nil => exact h
  | cons c cs ih =>
      rw [List.foldl_cons]
      exact ih _ (removeByMatcherF_map_none fuel c s nm h)

theorem spliceIndexOf_sublist (l : List Nat) (i : Nat) :
    List.Sublist (spliceIndexOf l i) l := by
  unfold spliceIndexOf
  split
  · exact List.erase_sublist i l
  · exact List.dropLast_sublist l

theorem spliceIndexOf_not_mem (l : List Nat) (i : Nat) (h : l.count i ≤ 1) :
    i ∉ spliceIndexOf l i := by
  unfold spliceIndexOf
  split
  · rename_i hc
    have hmem : i ∈ l := by simpa using hc
    have h1 : l.count i = 1 := le_antisymm h (List.count_pos_iff.mpr hmem)
    exact List.count_eq_zero.mp (by rw [List.count_erase_self, h1])
  · rename_i hc
    intro hmem
    exact hc (by simpa using (List.dropLast_sublist l).subset hmem)

theorem removeFold_arena (fuel : Nat) (l : List Nat) (s : MatcherState) :
    (l.foldl (fun st c => removeByMatcherF st fuel c) s).nodes = s.nodes ∧
    (l.foldl (fun st c => removeByMatcherF st fuel c) s).nextId = s.nextId ∧
    (l.foldl (fun st c => removeByMatcherF st fuel c) s).gOpts = s.gOpts := by
  induction l generalizing s with
  | nil => exact ⟨rfl, rfl, rfl⟩
  | cons c cs ih =>
      rw [List.foldl_cons]
      obtain ⟨h1, h2, h3⟩ := ih (removeByMatcherF s fuel c)
      obtain ⟨g1, g2, g3⟩ := removeByMatcherF_arena fuel c s
      exact ⟨h1.trans g1, h2.trans g2, h3.trans g3⟩

theorem removeRouteByName_arena (s : MatcherState) (nm : String) :
    (removeRouteByName s nm).nodes = s.nodes ∧
    (removeRouteByName s nm).nextId = s.nextId ∧
    (removeRouteByName s nm).gOpts = s.gOpts := by
  unfold removeRouteByName
  cases h : aGet s.matcherMap nm with
  | none => exact ⟨rfl, rfl, rfl⟩
  | some i =>
      obtain ⟨h1, h2, h3⟩ := removeFold_arena s.nextId (getNodeD s i).aliases _
      obtain ⟨g1, g2, g3⟩ := removeFold_arena s.nextId (getNodeD s i).children _
      exact ⟨h1.trans g1, h2.trans g2, h3.trans g3⟩

theorem removeRouteByName_noop (s : MatcherState) (nm : String)
    (h : aGet s.matcherMap nm = none) : removeRouteByName s nm = s := by
  unfold removeRouteByName
  rw [h]

theorem removeRouteByName_map_self (s : MatcherState) (nm : String) (i : Nat)
    (h : aGet s.matcherMap nm = some i) :
    aGet (removeRouteByName s nm).matcherMap nm = none := by
  unfold removeRouteByName
  rw [h]
  apply removeFold_map_none
  apply removeFold_map_none
  exact aGet_aDel_self s.matcherMap nm

theorem removeRouteByName_self_out (s : MatcherState) (nm : String) (i : Nat)
    (h : aGet s.matcherMap nm = some i) (hcount : s.matchers.count i ≤ 1) :
    i ∉ (removeRouteByName s nm).matchers := by
  unfold removeRouteByName
  rw [h]
  intro hmem
  have h1 := (removeFold_sublist s.nextId (getNodeD s i).aliases _).subset hmem
  have h2 := (removeFold_sublist s.nextId (getNodeD s i).children _).subset h1
  exact spliceIndexOf_not_mem s.matchers i hcount h2

theorem mem_insertAt_self {α : Type} (n : Nat) (x : α) (l : List α) :
    x ∈ insertAt n x l := by
  induction n generalizing l with
  | zero => exact List.mem_cons_self x l
  | succ n ih =>
      cases l with
      | nil => exact List.mem_cons_self x []
      | cons a l => exact List.mem_cons_of_mem a (ih l)

theorem mem_insertAt {α : Type} (n : Nat) (x y : α) (l : List α)
    (h : y ∈ insertAt n x l) : y = x ∨ y ∈ l := by
  induction n generalizing l with
  | zero =>
      rcases List.mem_cons.mp h with h1 | h1
      · exact Or.inl h1
      · exact Or.inr h1
  | succ n ih =>
      cases l with
      | nil =>
          rcases List.mem_cons.mp h with h1 | h1
          · exact Or.inl h1
          · cases h1
      | cons a l =>
          rcases List.mem_cons.mp h with h1 | h1
          · exact Or.inr (h1 ▸ List.mem_cons_self a l)
          · rcases ih l h1 with h2 | h2
            · exact Or.inl h2
            · exact Or.inr (List.mem_cons_of_mem a h2)

theorem insertMatcher_matchers (s : MatcherState) (id : Nat) :
    (insertMatcher s id).matchers =
      insertAt (insertIdxAux s id s.matchers) id s.matchers := by
  unfold insertMatcher
  dsimp only
  split
  · split <;> rfl
  · rfl

theorem isAliasRecordF_noneArg (s : MatcherState) (fuel : Nat) :
    isAliasRecordF s fuel none = false := by
  cases fuel <;> rfl

theorem getNode_addNode_self (s : MatcherState) (node : MatcherNode)
    (hNodes : ∀ p ∈ s.nodes, p.1 < s.nextId) :
    getNode (addNode s node) s.nextId = some node := by
  unfold getNode addNode
  dsimp only
  rw [List.find?_append]
  have hnone : s.nodes.find? (fun p => p.1 == s.nextId) = none := by
    rw [List.find?_eq_none]
    intro p hp
    simp [beq_eq_false_iff_ne.mpr (Nat.ne_of_lt (hNodes p hp))]
  rw [hnone]
  simp [List.find?_cons]

theorem resolve_byName_notFound (s : MatcherState) (nm : String) (lp : Option Params)
    (cur : MatcherLocation) (h : aGet s.matcherMap nm = none) :
    resolve s (.byName nm lp) cur = .error .matcherNotFound := by
  simp only [resolve]
  rw [h]

end RemovalLemmas

section ClaimC10

/-- Claim C10: calling removeRoute with a matcher reference that is not
present in the ordered sequence leaves the registry entirely unchanged (its
name-table entry, children and aliases are untouched); in particular the
de-registration callback returned by addRoute for a pass-through root
record (the concrete registry sG, whose root 0 has no view slots, name or
redirect and was never inserted) does not remove the inserted child 1. -/
theorem claim_c10 :
    (∀ (s : MatcherState) (i : Nat), i ∉ s.matchers → removeRouteByMatcher s i = s) ∧
    ((addRoute emptyState recG none).2 = some 0 ∧
      removeRouteByMatcher sG 0 = sG ∧
      aGet sG.matcherMap "c" = some 1 ∧ sG.matchers = [1]) := by
  constructor
  · intro s i h
    unfold removeRouteByMatcher
    cases hn : s.nextId with
    | zero => rfl
    | succ f =>
        unfold removeByMatcherF
        split
        · rename_i hc
          exact absurd (by simpa using hc) h
        · rfl
  · exact ⟨by decide, by decide, by decide, by decide⟩

/-- Witness for claim C10: the hypothesis of the universal part holds at the
concrete pass-through root of sG. -/
theorem claim_c10_witness :
    (0 : Nat) ∉ sG.matchers ∧ removeRouteByMatcher sG 0 = sG :=
  ⟨by decide, claim_c10.1 sG 0 (by decide)⟩

end ClaimC10

section ClaimC5

/-- Claim C5 counterexample: in the registry sP the record p (id 0) owns the
pass-through child g (id 1) whose own child k (id 2) is registered; after
removeRoute by the name p, the name k is still in the name table, its
matcher is still in the ordered sequence, and resolving by the name k still
succeeds — refuting the claim that removal recursively removes all children
so that every removed name subsequently raises MatcherNotFound. -/
theorem claim_c5_counterexample :
    aGet sP.matcherMap "p" = some 0 ∧
    (getNodeD sP 0).children = [1] ∧
    (getNodeD sP 1).children = [2] ∧
    aGet sP2.matcherMap "k" = some 2 ∧
    sP2.matchers.contains 2 = true ∧
    (resolve sP2 (.byName "k" none) curRoot).isOk = true := by
  refine ⟨by decide, by decide, by decide, by decide, by decide, by decide⟩

/-- Claim C5 (amended): removeRoute with an unregistered name is a silent
no-op; removeRoute with a registered name removes that name from the table
(so every subsequent resolve by that name raises MatcherNotFound) and
removes its matcher from the ordered sequence, and it recursively removes
the children and aliases of the named matcher that are present in the
ordered sequence — the recursion does not descend through matchers absent
from the sequence, such as pass-through grouping nodes, so names reachable
only through such nodes survive. -/
theorem removeRouteByName_depth1_out (s : MatcherState) (nm : String) (i c f : Nat)
    (h : aGet s.matcherMap nm = some i) (hf : s.nextId = f + 1)
    (hc : c ∈ (getNodeD s i).children ++ (getNodeD s i).aliases)
    (hcount : s.matchers.count c ≤ 1) :
    c ∉ (removeRouteByName s nm).matchers := by
  have hcount1 :
      ({ s with
          matcherMap := aDel s.matcherMap nm
          matchers := spliceIndexOf s.matchers i } :
        MatcherState).matchers.count c ≤ 1 := by
    show (spliceIndexOf s.matchers i).count c ≤ 1
    exact le_trans ((spliceIndexOf_sublist s.matchers i).count_le c) hcount
  unfold removeRouteByName
  rw [h, hf]
  rw [hf] at hcount1
  rcases List.mem_append.mp hc with hch | hal
  · intro hmem
    have h1 := (removeFold_sublist (f + 1) (getNodeD s i).aliases _).subset hmem
    exact removeByMatcherF_foldAbsent f (getNodeD s i).children _ c hch hcount1 h1
  · apply removeByMatcherF_foldAbsent f (getNodeD s i).aliases _ c hal
    exact le_trans
      ((removeFold_sublist (f + 1) (getNodeD s i).children _).count_le c) hcount1

theorem claim_c5_amended :
    (∀ (s : MatcherState) (nm : String),
      aGet s.matcherMap nm = none → removeRouteByName s nm = s) ∧
    (∀ (s : MatcherState) (nm : String) (i : Nat) (lp : Option Params)
        (cur : MatcherLocation),
      aGet s.matcherMap nm = some i →
      aGet (removeRouteByName s nm).matcherMap nm = none ∧
      (s.matchers.count i ≤ 1 → i ∉ (removeRouteByName s nm).matchers) ∧
      resolve (removeRouteByName s nm) (.byName nm lp) cur = .error .matcherNotFound) ∧
    (∀ (s : MatcherState) (nm : String) (i c f : Nat),
      aGet s.matcherMap nm = some i → s.nextId = f + 1 →
      c ∈ (getNodeD s i).children ++ (getNodeD s i).aliases →
      s.matchers.count c ≤ 1 →
      c ∉ (removeRouteByName s nm).matchers) := by
  refine ⟨?_, ?_, ?_⟩
  · exact removeRouteByName_noop
  · intro s nm i lp cur h
    have hmap := removeRouteByName_map_self s nm i h
    exact ⟨hmap, fun hcount => removeRouteByName_self_out s nm i h hcount,
      resolve_byName_notFound _ nm lp cur hmap⟩
  · intro s nm i c f h hf hc hcount
    exact removeRouteByName_depth1_out s nm i c f h hf hc hcount

/-- Witness for claim C5 (amended): instantiated on the concrete registry
sP — the unregistered name q is a no-op, removing the registered name p
empties its table entry and drops matcher 0, and the pass-through child 1
(present in the children list but not in the ordered sequence) is trivially
absent afterwards. -/
theorem claim_c5_witness :
    (aGet sP.matcherMap "q" = none ∧ removeRouteByName sP "q" = sP) ∧
    (aGet sP2.matcherMap "p" = none ∧ (0 : Nat) ∉ sP2.matchers ∧
      resolve sP2 (.byName "p" none) curRoot = .error .matcherNotFound) ∧
    (1 : Nat) ∉ sP2.matchers := by
  have h1 : aGet sP.matcherMap "q" = none := by decide
  have h2 : aGet sP.matcherMap "p" = some 0 := by decide
  have h3 := claim_c5_amended.2.1 sP "p" 0 none curRoot h2
  have h4 := claim_c5_amended.2.2 sP "p" 0 1 2 h2 (by decide)
    (by decide) (by decide)
  exact ⟨⟨h1, claim_c5_amended.1 sP "q" h1⟩,
    ⟨h3.1, h3.2.1 (by decide), h3.2.2⟩, h4⟩

end ClaimC5

section ClaimC2

theorem stringify_match_ne_notFound (x : Except String String)
    (f : String → MatcherLocation) :
    (match x with
     | .error e => (.error (.stringifyFail e) : Except ResolveErr MatcherLocation)
     | .ok p => .ok (f p)) ≠ .error .matcherNotFound := by
  cases x <;> simp

theorem find_match_ne_notFound (x : Option Nat)
    (f : Nat → MatcherLocation) (d : MatcherLocation) :
    (match x with
     | some i => (.ok (f i) : Except ResolveErr MatcherLocation)
     | none => .ok d) ≠ .error .matcherNotFound := by
  cases x <;> simp

/-- Claim C2 counterexample: the registry sX matches the path /x, and the
current location curStale carries a stale name together with that very
path; relative resolution still raises MatcherNotFound because the source
consults only the name table when the current location has a name — even
though a registered matcher expression does match the current path, so the
conjunctive condition of the claim (name absent AND no matcher matches the
path) is false while the error is raised. -/
theorem claim_c2_counterexample :
    resolve sX (.relative none) curStale = .error .matcherNotFound ∧
    aGet sX.matcherMap "gone" = none ∧
    (sX.matchers.find? (fun i => reTest (getNodeD sX i) curStale.path)).isSome = true :=
  ⟨by decide, by decide, by decide⟩

/-- Claim C2 (amended): resolve raises MatcherNotFound exactly when a
name-based resolution is given a name absent from the name table, or a
relative-to-current resolution (neither name nor path supplied) cannot
re-locate the current location matcher: when the current location has a
name, exactly when that name is absent from the name table (its path is
not consulted); when the current location has no name, exactly when no
registered matcher expression matches its path.  In both cases the error
is returned to the caller, never swallowed. -/
theorem claim_c2_amended :
    ∀ (s : MatcherState) (loc : MatcherLocationRaw) (cur : MatcherLocation),
      resolve s loc cur = .error .matcherNotFound ↔
        ((∃ n lp, loc = .byName n lp ∧ aGet s.matcherMap n = none) ∨
         (∃ lp, loc = .relative lp ∧
            (match cur.name with
             | some n => aGet s.matcherMap n = none
             | none =>
                s.matchers.find? (fun i => reTest (getNodeD s i) cur.path) = none))) := by
  intro s loc cur
  cases loc with
  | byName n lp =>
      simp only [resolve]
      cases h : aGet s.matcherMap n with
      | none =>
          exact iff_of_true rfl (Or.inl ⟨n, lp, rfl, h⟩)
      | some mid =>
          apply iff_of_false
          · exact stringify_match_ne_notFound _ _
          · rintro (⟨n', lp', heq, hnone⟩ | ⟨lp', heq, _⟩)
            · cases heq
              rw [h] at hnone
              cases hnone
            · cases heq
  | byPath p lp =>
      simp only [resolve]
      apply iff_of_false
      · exact find_match_ne_notFound _ _ _
      · rintro (⟨n', lp', heq, _⟩ | ⟨lp', heq, _⟩) <;> cases heq
  | relative lp =>
      simp only [resolve]
      cases hcur : cur.name with
      | some n =>
          dsimp only
          cases h : aGet s.matcherMap n with
          | none =>
              exact iff_of_true rfl (Or.inr ⟨lp, rfl, rfl⟩)
          | some mid =>
              apply iff_of_false
              · exact stringify_match_ne_notFound _ _
              · rintro (⟨n', lp', heq, _⟩ | ⟨lp', heq, hnone⟩)
                · cases heq
                · cases heq
                  cases hnone
      | none =>
          dsimp only
          cases h : s.matchers.find? (fun i => reTest (getNodeD s i) cur.path) with
          | none =>
              exact iff_of_true rfl (Or.inr ⟨lp, rfl, rfl⟩)
          | some mid =>
              apply iff_of_false
              · exact stringify_match_ne_notFound _ _
              · rintro (⟨n', lp', heq, _⟩ | ⟨lp', heq, hnone⟩)
                · cases heq
                · cases heq
                  cases hnone

/-- Witness for claim C2 (amended): at the concrete registry sX the
equivalence instantiates to the stale-name scenario, giving the raised
error from the table miss. -/
theorem claim_c2_witness :
    resolve sX (.relative none) curStale = .error .matcherNotFound :=
  (claim_c2_amended sX (.relative none) curStale).mpr
    (Or.inr ⟨none, rfl, (by decide : aGet sX.matcherMap "gone" = none)⟩)

end ClaimC2

section ClaimC3

/-- Claim C3: for every resolve request by literal path, when at least one
registered matcher expression matches the path the first such matcher of
the ordered registry sequence supplies the result name and its parse
supplies the params; when no matcher matches, resolve raises no error and
returns an ok MatchedLocation whose path is the raw input path, whose
params are empty and whose matched chain is empty. -/
theorem claim_c3 :
    (∀ (s : MatcherState) (p : String) (lp : Option Params) (cur : MatcherLocation)
        (mid : Nat),
      s.matchers.find? (fun i => reTest (getNodeD s i) p) = some mid →
      ∃ ps, parseNode (getNodeD s mid) p = some ps ∧
        resolve s (.byPath p lp) cur =
          .ok { name := (getNodeD s mid).record.name, path := p, params := ps,
                matched := ancestorChain s mid,
                meta := mergeMetaFields (ancestorChain s mid) }) ∧
    (∀ (s : MatcherState) (p : String) (lp : Option Params) (cur : MatcherLocation),
      s.matchers.find? (fun i => reTest (getNodeD s i) p) = none →
      resolve s (.byPath p lp) cur =
        .ok { name := none, path := p, params := [], matched := [], meta := [] }) := by
  constructor
  · intro s p lp cur mid hfind
    have htest := List.find?_some hfind
    have hparse : (parseNode (getNodeD s mid) p).isSome = true := htest
    obtain ⟨ps, hps⟩ := Option.isSome_iff_exists.mp hparse
    refine ⟨ps, hps, ?_⟩
    simp only [resolve]
    rw [hfind]
    dsimp only
    rw [hps]
    rfl
  · intro s p lp cur hfind
    simp only [resolve]
    rw [hfind]

/-- Witness for claim C3: on the registry sU, the path /users/7 is matched
by the first (and only) matcher and /nomatch by none. -/
theorem claim_c3_witness :
    (∃ ps, parseNode (getNodeD sU 0) "/users/7" = some ps ∧
      resolve sU (.byPath "/users/7" none) curRoot =
        .ok { name := (getNodeD sU 0).record.name, path := "/users/7", params := ps,
              matched := ancestorChain sU 0,
              meta := mergeMetaFields (ancestorChain sU 0) }) ∧
    resolve sU (.byPath "/nomatch" none) curRoot =
      .ok { name := none, path := "/nomatch", params := [], matched := [], meta := [] } :=
  ⟨claim_c3.1 sU "/users/7" none curRoot 0 (by decide),
   claim_c3.2 sU "/nomatch" none curRoot (by decide)⟩

end ClaimC3

section ClaimC1

/-- Claim C1: for every resolve request by name whose name is registered
(and which yields a result), the result params equal the merge of (a) the
values of the target pattern non-optional parameter names taken from the
current location params, overridden by (b) the explicitly supplied params
restricted to the parameter names the target pattern declares; every key of
the result params is a declared parameter name, any key the pattern does
not declare is absent from the result params, and the result path is the
stringification of exactly those params — so an undeclared supplied key
reaches neither the params nor the reconstructed path. -/
theorem claim_c1 :
    ∀ (s : MatcherState) (n : String) (lp : Option Params) (cur : MatcherLocation)
      (r : MatcherLocation) (mid : Nat),
      aGet s.matcherMap n = some mid →
      resolve s (.byName n lp) cur = .ok r →
      (r.params =
        aAssign
          (paramsFromLocation cur.params
            (((getNodeD s mid).keys.filter (fun k => ! k.optional)).map (fun k => k.name)))
          (match lp with
           | some pp => paramsFromLocation pp ((getNodeD s mid).keys.map (fun k => k.name))
           | none => [])) ∧
      (∀ k, k ∈ keysOf r.params → k ∈ (getNodeD s mid).keys.map (fun k => k.name)) ∧
      (∀ k, k ∉ (getNodeD s mid).keys.map (fun k => k.name) → aGet r.params k = none) ∧
      stringifyNode (getNodeD s mid) r.params = .ok r.path := by
  intro s n lp cur r mid hmap hres
  simp only [resolve] at hres
  rw [hmap] at hres
  dsimp only at hres
  generalize hsupp : (match lp with
      | some pp =>
          paramsFromLocation pp ((getNodeD s mid).keys.map (fun k : ParamKey => k.name))
      | none => ([] : Params)) = supp at hres ⊢
  cases hst : stringifyNode (getNodeD s mid)
      (aAssign
        (paramsFromLocation cur.params
          (((getNodeD s mid).keys.filter (fun k => ! k.optional)).map (fun k => k.name)))
        supp) with
  | error e => rw [hst] at hres; cases hres
  | ok path =>
      rw [hst] at hres
      have hr := (Except.ok.injEq _ _).mp hres
      subst hr
      refine ⟨rfl, ?_, ?_, hst⟩
      · intro k hk
        rcases mem_keysOf_aAssign _ _ k hk with h1 | h1
        · have h2 := mem_keysOf_paramsFromLocation _ _ k h1
          exact (List.map_subset _ (List.filter_sublist _).subset) h2
        · cases lp with
          | some pp =>
              rw [← hsupp] at h1
              exact mem_keysOf_paramsFromLocation _ _ k h1
          | none =>
              rw [← hsupp] at h1
              simp [keysOf] at h1
      · intro k hk
        apply aGet_eq_none_of_not_mem_keysOf
        intro hmem
        rcases mem_keysOf_aAssign _ _ k hmem with h1 | h1
        · exact hk ((List.map_subset _ (List.filter_sublist _).subset)
            (mem_keysOf_paramsFromLocation _ _ k h1))
        · cases lp with
          | some pp =>
              rw [← hsupp] at h1
              exact hk (mem_keysOf_paramsFromLocation _ _ k h1)
          | none =>
              rw [← hsupp] at h1
              simp [keysOf] at h1

/-- Witness for claim C1: concrete scenario A — resolving the name user
with supplied params id 42 against the root current location yields the
params mapping id 42 and the path /users/42. -/
theorem claim_c1_witness :
    aGet sU.matcherMap "user" = some 0 ∧
    resolve sU (.byName "user" (some [("id", .str "42")])) curRoot = .ok rUval ∧
    (rUval.params =
      aAssign
        (paramsFromLocation curRoot.params
          (((getNodeD sU 0).keys.filter (fun k => ! k.optional)).map (fun k => k.name)))
        (paramsFromLocation [("id", .str "42")]
          ((getNodeD sU 0).keys.map (fun k => k.name)))) ∧
    stringifyNode (getNodeD sU 0) rUval.params = .ok rUval.path := by
  have h1 : aGet sU.matcherMap "user" = some 0 := by decide
  have h2 : resolve sU (.byName "user" (some [("id", .str "42")])) curRoot = .ok rUval := by
    decide
  have h3 := claim_c1 sU "user" (some [("id", .str "42")]) curRoot rUval 0 h1 h2
  exact ⟨h1, h2, h3.1, h3.2.2.2⟩

end ClaimC1

section ClaimC7

theorem aGet_mergeMetaFields (matched : List RouteRecordNorm) (k : String)
    (h : ∀ rec ∈ matched, (keysOf rec.meta).Nodup) :
    aGet (mergeMetaFields matched) k =
      matched.reverse.findSome? (fun rec => aGet rec.meta k) := by
  have h1 : mergeMetaFields matched =
      (matched.map (fun rec => rec.meta)).foldl aAssign [] := by
    rw [List.foldl_map]
    rfl
  have h2 : ∀ x ∈ matched.map (fun rec => rec.meta), (keysOf x).Nodup := by
    intro x hx
    obtain ⟨rec, hrec, hval⟩ := List.mem_map.mp hx
    rw [← hval]
    exact h rec hrec
  rw [h1, aGet_mergeMeta_fold _ _ k h2, ← List.map_reverse, List.findSome?_map]
  cases hfs : matched.reverse.findSome? (fun rec => aGet rec.meta k) with
  | some v =>
      have : List.findSome? ((fun x => aGet x k) ∘ fun rec => rec.meta)
          matched.reverse = some v := hfs
      rw [this]
  | none =>
      have : List.findSome? ((fun x => aGet x k) ∘ fun rec => rec.meta)
          matched.reverse = none := hfs
      rw [this]
      rfl

/-- Claim C7: for every resolve call that returns a location, the matched
sequence is exactly the chain of normalized records obtained by walking the
parent references upward from the selected matcher, in root-to-leaf order
(empty when no matcher is selected), the meta is the left-to-right fold
(root first) of the matched records meta bags, and on a key collision the
deepest (child) record wins: the looked-up value of any key is the value of
the last matched record whose meta bag defines that key. -/
theorem claim_c7 :
    ∀ (s : MatcherState) (loc : MatcherLocationRaw) (cur : MatcherLocation)
      (r : MatcherLocation),
      resolve s loc cur = .ok r →
      (r.matched =
        match selectMatcher s loc cur with
        | some mid => ancestorChain s mid
        | none => []) ∧
      r.meta = mergeMetaFields r.matched ∧
      ((∀ rec ∈ r.matched, (keysOf rec.meta).Nodup) →
        ∀ k, aGet r.meta k = r.matched.reverse.findSome? (fun rec => aGet rec.meta k)) := by
  intro s loc cur r hres
  cases loc with
  | byName n lp =>
      simp only [resolve] at hres
      cases hm : aGet s.matcherMap n with
      | none => rw [hm] at hres; cases hres
      | some mid =>
          rw [hm] at hres
          dsimp only at hres
          generalize hsupp : (match lp with
              | some pp =>
                  paramsFromLocation pp ((getNodeD s mid).keys.map (fun k : ParamKey => k.name))
              | none => ([] : Params)) = supp at hres
          cases hst : stringifyNode (getNodeD s mid)
              (aAssign
                (paramsFromLocation cur.params
                  (((getNodeD s mid).keys.filter (fun k => ! k.optional)).map
                    (fun k => k.name)))
                supp) with
          | error e => rw [hst] at hres; cases hres
          | ok path =>
              rw [hst] at hres
              have hr := (Except.ok.injEq _ _).mp hres
              subst hr
              refine ⟨?_, rfl, ?_⟩
              · simp only [selectMatcher]
                rw [hm]
              · intro hnodup k
                exact aGet_mergeMetaFields _ k hnodup
  | byPath p lp =>
      simp only [resolve] at hres
      cases hf : s.matchers.find? (fun i => reTest (getNodeD s i) p) with
      | some mid =>
          rw [hf] at hres
          dsimp only at hres
          have hr := (Except.ok.injEq _ _).mp hres
          subst hr
          refine ⟨?_, rfl, ?_⟩
          · simp only [selectMatcher]
            rw [hf]
          · intro hnodup k
            exact aGet_mergeMetaFields _ k hnodup
      | none =>
          rw [hf] at hres
          dsimp only at hres
          have hr := (Except.ok.injEq _ _).mp hres
          subst hr
          refine ⟨?_, rfl, ?_⟩
          · simp only [selectMatcher]
            rw [hf]
          · intro hnodup k
            exact aGet_mergeMetaFields _ k hnodup
  | relative lp =>
      simp only [resolve] at hres
      cases hcur : cur.name with
      | some n =>
          rw [hcur] at hres
          dsimp only at hres
          cases hm : aGet s.matcherMap n with
          | none => rw [hm] at hres; cases hres
          | some mid =>
              rw [hm] at hres
              dsimp only at hres
              cases hst : stringifyNode (getNodeD s mid)
                  (aAssign (aAssign ([] : Params) cur.params) (lp.getD [])) with
              | error e => rw [hst] at hres; cases hres
              | ok path =>
                  rw [hst] at hres
                  have hr := (Except.ok.injEq _ _).mp hres
                  subst hr
                  refine ⟨?_, rfl, ?_⟩
                  · simp only [selectMatcher]
                    rw [hcur]
                    dsimp only
                    rw [hm]
                  · intro hnodup k
                    exact aGet_mergeMetaFields _ k hnodup
      | none =>
          rw [hcur] at hres
          dsimp only at hres
          cases hm : s.matchers.find? (fun i => reTest (getNodeD s i) cur.path) with
          | none => rw [hm] at hres; cases hres
          | some mid =>
              rw [hm] at hres
              dsimp only at hres
              cases hst : stringifyNode (getNodeD s mid)
                  (aAssign (aAssign ([] : Params) cur.params) (lp.getD [])) with
              | error e => rw [hst] at hres; cases hres
              | ok path =>
                  rw [hst] at hres
                  have hr := (Except.ok.injEq _ _).mp hres
                  subst hr
                  refine ⟨?_, rfl, ?_⟩
                  · simp only [selectMatcher]
                    rw [hcur]
                    dsimp only
                    rw [hm]
                  · intro hnodup k
                    exact aGet_mergeMetaFields _ k hnodup

/-- Witness for claim C7: resolving the name k on the registry sP walks the
three-record parent chain p, g, k in root-to-leaf order. -/
theorem claim_c7_witness :
    ∃ r, resolve sP (.byName "k" none) curRoot = .ok r ∧
      r.matched =
        (match selectMatcher sP (.byName "k" none) curRoot with
         | some mid => ancestorChain sP mid
         | none => []) ∧
      r.meta = mergeMetaFields r.matched := by
  have hres : resolve sP (.byName "k" none) curRoot =
      .ok { name := some "k", path := "/p/g/k", params := [],
            matched := ancestorChain sP 2,
            meta := mergeMetaFields (ancestorChain sP 2) } := by decide
  have h := claim_c7 sP (.byName "k" none) curRoot _ hres
  exact ⟨_, hres, h.1, h.2.1⟩

end ClaimC7

section ClaimC9

/-- Claim C9 counterexample: the source getRoutes returns the matchers
array itself — the very array that insertMatcher and removeRoute splice in
place — so the sequence it returned before a mutation observes the mutation
afterwards; concretely, the sequence of the empty registry and the sequence
after adding the record recX differ, and so do the sequences of sX before
and after removing its only matcher.  This refutes the snapshot part of the
claim (the returned sequence is not stable across subsequent addRoute or
removeRoute calls). -/
theorem claim_c9_counterexample :
    getRoutes (addRoute emptyState recX none).1 ≠ getRoutes emptyState ∧
    getRoutes (removeRouteByMatcher sX 0) ≠ getRoutes sX :=
  ⟨by decide, by decide⟩

/-- Claim C9 (amended): getRoutes and getRecordMatcher are read-only
accessors — neither modifies the registry state, which is why they are the
identity on the state component — but getRoutes returns the live ordered
sequence of the registry, mutated in place by addRoute and removeRoute, not
a stable snapshot: after removing the only matcher of the registry sX the
sequence read through getRoutes is empty while it held one element
before. -/
theorem claim_c9_amended :
    (∀ (s : MatcherState) (nm : String),
      getRoutesOp s = (s, s.matchers) ∧
      getRecordMatcherOp s nm = (s, aGet s.matcherMap nm)) ∧
    getRoutes sX = [0] ∧ getRoutes (removeRouteByMatcher sX 0) = [] := by
  refine ⟨fun s nm => ⟨rfl, rfl⟩, by decide, by decide⟩

end ClaimC9

section ClaimC6

theorem insertIdxAux_spec (s : MatcherState) (id : Nat) :
    ∀ (l : List Nat),
      (∀ j x, j < insertIdxAux s id l → l.get? j = some x →
        advanceCond s id x = true) ∧
      (∀ x, l.get? (insertIdxAux s id l) = some x → advanceCond s id x = false) := by
  intro l
  induction l with
  | nil =>
      constructor
      · intro j x hj hx
        simp [insertIdxAux] at hj
      · intro x hx
        cases hx
  | cons y ys ih =>
      constructor
      · intro j x hj hx
        by_cases hy : advanceCond s id y = true
        · simp only [insertIdxAux, if_pos hy] at hj
          cases j with
          | zero =>
              rw [List.get?_cons_zero] at hx
              cases hx
              exact hy
          | succ j' =>
              rw [List.get?_cons_succ] at hx
              exact ih.1 j' x (Nat.lt_of_succ_lt_succ hj) hx
        · simp only [insertIdxAux, if_neg hy] at hj
          exact absurd hj (Nat.not_lt_zero j)
      · intro x hx
        by_cases hy : advanceCond s id y = true
        · simp only [insertIdxAux, if_pos hy] at hx ⊢
          rw [List.get?_cons_succ] at hx
          exact ih.2 x hx
        · simp only [insertIdxAux, if_neg hy] at hx
          rw [List.get?_cons_zero] at hx
          cases hx
          exact Bool.eq_false_iff.mpr hy

/-- Claim C6 counterexample, refuting both parts of the claim.  First, the
exception direction is inverted: in the registry sB built from concrete
scenario B, the group record 0 (path /a) sits after its same-path
empty-path child 1 in the ordered sequence; the record placed after the
same-path record is precisely the one that is NOT a descendant (0 is not a
descendant of 1 — on the contrary, 1 is a descendant of 0).  Second, the
sorted-by-descending-specificity invariant fails: in the registry sE the
same-path descendant 1 (a child of matcher 0 whose resolved path equals
the path of 0 and whose pattern is not end-anchored, hence ranks strictly
less specific) stopped the insertion scan and sits before its ancestor 0,
so the ordered sequence holds an adjacent pair in strictly ascending
specificity. -/
theorem claim_c6_counterexample :
    (sB.matchers = [2, 1, 0] ∧
     (getNodeD sB 0).record.path = (getNodeD sB 1).record.path ∧
     isRecordChildOf sB 0 1 = false ∧
     isRecordChildOf sB 1 0 = true) ∧
    (sE.matchers = [1, 0] ∧
     (getNodeD sE 1).record.path = (getNodeD sE 0).record.path ∧
     isRecordChildOf sE 1 0 = true ∧
     0 < comparePathParserScore (getNodeD sE 1).score (getNodeD sE 0).score) :=
  ⟨⟨by decide, by decide, by decide, by decide⟩,
   ⟨by decide, by decide, by decide, by decide⟩⟩

/-- Claim C6 (amended): each insertion placement scans the ordered sequence
and advances past a present record exactly while the score comparator does
not rank the new matcher strictly more specific, with one exception for
records whose paths are textually equal: a record with the same path as an
already-present record is placed after that record only when it is NOT a
descendant of that record in the parent/child tree — a same-path
descendant stops the scan and is placed before its ancestor — which
guarantees that an empty-path child of a group appears before the group
matched entry; the matchers sequence after insertMatcher is exactly the
sequence with the new id inserted at the position where the scan stopped.
Because a same-path descendant stops the scan even when the comparator
ranks it strictly less specific than its ancestor, the resulting sequence
is not always sorted by descending specificity score (second part of the
counterexample). -/
theorem claim_c6_amended :
    ∀ (s : MatcherState) (id : Nat),
      (∀ j x, j < insertIdxAux s id s.matchers → s.matchers.get? j = some x →
        advanceCond s id x = true) ∧
      (∀ x, s.matchers.get? (insertIdxAux s id s.matchers) = some x →
        advanceCond s id x = false) ∧
      (∀ j x, s.matchers.get? j = some x →
        (getNodeD s id).record.path = (getNodeD s x).record.path →
        isRecordChildOf s id x = true →
        insertIdxAux s id s.matchers ≤ j) ∧
      (insertMatcher s id).matchers = insertAt (insertIdxAux s id s.matchers) id s.matchers := by
  intro s id
  obtain ⟨h1, h2⟩ := insertIdxAux_spec s id s.matchers
  refine ⟨h1, h2, ?_, ?_⟩
  · intro j x hx hpath hchild
    by_contra hlt
    push_neg at hlt
    have := h1 j x hlt hx
    rw [advanceCond] at this
    rw [hpath, hchild] at this
    simp at this
  · exact insertMatcher_matchers s id

/-- Witness for claim C6 (amended): re-inserting the empty-path child 1 of
sB (a descendant of the same-path group 0 sitting at position 2) would
stop no later than position 2, hence before the group entry. -/
theorem claim_c6_witness :
    insertIdxAux sB 1 sB.matchers ≤ 2 :=
  (claim_c6_amended sB 1).2.2.1 2 0 (by decide) (by decide) (by decide)

end ClaimC6

section ClaimC4

theorem isAliasRecordB_fresh (s1 : MatcherState) (i : Nat) (node : MatcherNode)
    (hn : getNode s1 i = some node)
    (hnext : s1.nextId = i + 1)
    (hparent : node.parent = none) (halias : node.record.aliasOf = none) :
    isAliasRecordB s1 i = false := by
  unfold isAliasRecordB
  rw [hnext]
  have hgd : getNodeD s1 i = node := by
    unfold getNodeD
    rw [hn]
    rfl
  show isAliasRecordF s1 (i + 1) (some i) = false
  simp only [isAliasRecordF, hgd, halias, hparent, isAliasRecordF_noneArg]
  rfl

theorem isAliasRecordB_addNode_fresh (s : MatcherState) (node : MatcherNode)
    (hNodes : ∀ p ∈ s.nodes, p.1 < s.nextId)
    (hparent : node.parent = none) (halias : node.record.aliasOf = none) :
    isAliasRecordB (addNode s node) s.nextId = false :=
  isAliasRecordB_fresh _ _ _ (getNode_addNode_self s node hNodes) rfl hparent halias

theorem isAliasRecordB_root (s1 : MatcherState) (i f : Nat) (node : MatcherNode)
    (hn : getNode s1 i = some node)
    (hnext : s1.nextId = f + 1)
    (hparent : node.parent = none) (halias : node.record.aliasOf = none) :
    isAliasRecordB s1 i = false := by
  unfold isAliasRecordB
  rw [hnext]
  have hgd : getNodeD s1 i = node := by
    unfold getNodeD
    rw [hn]
    rfl
  show isAliasRecordF s1 (f + 1) (some i) = false
  simp only [isAliasRecordF, hgd, halias, hparent, isAliasRecordF_noneArg]
  rfl

/-- Claim C4 counterexample: in the registry sP the name p maps to matcher
0 whose descendant 2 (named k) is in the ordered sequence; after the
top-level re-registration of the name p (registry sP3) the name maps to the
new matcher 3, but the old subtree member 2 is still present in the ordered
sequence — refuting the claim that the previously registered record AND its
subtree are removed. -/
theorem claim_c4_counterexample :
    aGet sP.matcherMap "p" = some 0 ∧
    isRecordChildOf sP 2 0 = true ∧
    aGet sP3.matcherMap "p" = some 3 ∧
    (0 : Nat) ∉ sP3.matchers ∧
    sP3.matchers.contains 2 = true :=
  ⟨by decide, by decide, by decide, by decide, by decide⟩

end ClaimC4

section ClaimC8

theorem addEvo_refl (s : MatcherState) : AddEvo s s :=
  ⟨Nat.le_refl _, fun _ _ => rfl, fun _ _ => rfl, fun _ hi => Or.inl hi⟩

theorem addEvo_trans {a b c : MatcherState} (h1 : AddEvo a b) (h2 : AddEvo b c) :
    AddEvo a c := by
  obtain ⟨hn1, hr1, hp1, hm1⟩ := h1
  obtain ⟨hn2, hr2, hp2, hm2⟩ := h2
  refine ⟨hn1.trans hn2, ?_, ?_, ?_⟩
  · intro i hi
    exact (hr2 i (Nat.lt_of_lt_of_le hi hn1)).trans (hr1 i hi)
  · intro i hi
    exact (hp2 i (Nat.lt_of_lt_of_le hi hn1)).trans (hp1 i hi)
  · intro i hi
    rcases hm2 i hi with h | ⟨hlo, hhi, r, hrec, hdisp⟩
    · rcases hm1 i h with h' | ⟨hlo, hhi, r, hrec, hdisp⟩
      · exact Or.inl h'
      · exact Or.inr ⟨hlo, Nat.lt_of_lt_of_le hhi hn2, r, (hr2 i hhi).trans hrec, hdisp⟩
    · exact Or.inr ⟨hn1.trans hlo, hhi, r, hrec, hdisp⟩

theorem recordAt_eq_of_nodes_eq {s t : MatcherState} (h : t.nodes = s.nodes) (i : Nat) :
    recordAt t i = recordAt s i := by
  unfold recordAt getNode
  rw [h]

theorem parentAt_eq_of_nodes_eq {s t : MatcherState} (h : t.nodes = s.nodes) (i : Nat) :
    parentAt t i = parentAt s i := by
  unfold parentAt getNode
  rw [h]

theorem getNode_addNode_ne (s : MatcherState) (node : MatcherNode) (i : Nat)
    (h : i ≠ s.nextId) : getNode (addNode s node) i = getNode s i := by
  unfold getNode addNode
  dsimp only
  rw [List.find?_append]
  have : List.find? (fun p => p.1 == i) [(s.nextId, node)] = none := by
    simp [List.find?_cons, beq_eq_false_iff_ne.mpr (fun e => h e.symm)]
  rw [this, Option.or_none]

theorem recordAt_addNode_ne (s : MatcherState) (node : MatcherNode) (i : Nat)
    (h : i ≠ s.nextId) : recordAt (addNode s node) i = recordAt s i := by
  unfold recordAt
  rw [getNode_addNode_ne s node i h]

theorem parentAt_addNode_ne (s : MatcherState) (node : MatcherNode) (i : Nat)
    (h : i ≠ s.nextId) : parentAt (addNode s node) i = parentAt s i := by
  unfold parentAt
  rw [getNode_addNode_ne s node i h]

theorem recordAt_addNode_self (s : MatcherState) (node : MatcherNode)
    (hwf : NodesWf s) : recordAt (addNode s node) s.nextId = some node.record := by
  unfold recordAt
  rw [getNode_addNode_self s node hwf]
  rfl

theorem nodesWf_addNode (s : MatcherState) (node : MatcherNode) (hwf : NodesWf s) :
    NodesWf (addNode s node) := by
  intro p hp
  rcases List.mem_append.mp hp with h | h
  · exact Nat.lt_succ_of_lt (hwf p h)
  · simp only [List.mem_singleton] at h
    rw [h]
    exact Nat.lt_succ_self _

theorem addEvo_addNode (s : MatcherState) (node : MatcherNode) :
    AddEvo s (addNode s node) := by
  refine ⟨Nat.le_succ _, ?_, ?_, ?_⟩
  · intro i hi
    exact recordAt_addNode_ne s node i (Nat.ne_of_lt hi)
  · intro i hi
    exact parentAt_addNode_ne s node i (Nat.ne_of_lt hi)
  · intro i hi
    exact Or.inl hi

theorem find?_map_keyed (nodes : List (Nat × MatcherNode)) (j i : Nat)
    (f : MatcherNode → MatcherNode) :
    (nodes.map (fun p => if p.1 == j then (p.1, f p.2) else p)).find?
        (fun p => p.1 == i) =
      (nodes.find? (fun p => p.1 == i)).map
        (fun p => if p.1 == j then (p.1, f p.2) else p) := by
  induction nodes with
  | nil => rfl
  | cons p ps ih =>
      by_cases hj : p.1 = j
      · by_cases hi : p.1 = i
        · have hji : j = i := by rw [hj] at hi; exact hi
          simp [List.find?_cons, hj, hji]
        · have hb : (p.1 == i) = false := beq_eq_false_iff_ne.mpr hi
          have hbji : (j == i) = false := by
            rw [← hj]
            exact hb
          simp only [List.map_cons, List.find?_cons, hj, beq_self_eq_true, if_true,
            hbji, hb]
          exact ih
      · have hbj : (p.1 == j) = false := beq_eq_false_iff_ne.mpr hj
        by_cases hi : p.1 = i
        · have hij : ¬ i = j := by rw [← hi]; exact hj
          simp [List.find?_cons, hbj, hi, hij]
        · have hb : (p.1 == i) = false := beq_eq_false_iff_ne.mpr hi
          simp only [List.map_cons, hbj, Bool.false_eq_true, if_false,
            List.find?_cons, hb]
          exact ih

theorem recordAt_updateNode (s : MatcherState) (j : Nat) (f : MatcherNode → MatcherNode)
    (hf : ∀ nd, (f nd).record = nd.record) (i : Nat) :
    recordAt (updateNode s j f) i = recordAt s i := by
  unfold recordAt getNode updateNode
  dsimp only
  rw [find?_map_keyed]
  cases s.nodes.find? (fun p => p.1 == i) with
  | none => rfl
  | some p =>
      by_cases hj : p.1 = j
      · simp [hj, hf]
      · have hb : ¬ ((p.1 == j) = true) := by simp [hj]
        simp only [Option.map_some', if_neg hb]

theorem parentAt_updateNode (s : MatcherState) (j : Nat) (f : MatcherNode → MatcherNode)
    (hf : ∀ nd, (f nd).parent = nd.parent) (i : Nat) :
    parentAt (updateNode s j f) i = parentAt s i := by
  unfold parentAt getNode updateNode
  dsimp only
  rw [find?_map_keyed]
  cases s.nodes.find? (fun p => p.1 == i) with
  | none => rfl
  | some p =>
      by_cases hj : p.1 = j
      · simp [hj, hf]
      · have hb : ¬ ((p.1 == j) = true) := by simp [hj]
        simp only [Option.map_some', if_neg hb]

theorem recordAt_pushChild (s : MatcherState) (a b i : Nat) :
    recordAt (pushChild s a b) i = recordAt s i := by
  unfold pushChild
  exact recordAt_updateNode s a
    (fun n => { n with children := n.children ++ [b] }) (fun _ => rfl) i

theorem recordAt_pushAlias (s : MatcherState) (a b i : Nat) :
    recordAt (pushAlias s a b) i = recordAt s i := by
  unfold pushAlias
  exact recordAt_updateNode s a
    (fun n => { n with aliases := n.aliases ++ [b] }) (fun _ => rfl) i

theorem nodesWf_updateNode (s : MatcherState) (j : Nat) (f : MatcherNode → MatcherNode)
    (hwf : NodesWf s) : NodesWf (updateNode s j f) := by
  intro p hp
  obtain ⟨q, hq, hval⟩ := List.mem_map.mp hp
  have hkey : p.1 = q.1 := by
    by_cases h : q.1 = j
    · rw [← hval]; simp [h]
    · rw [← hval]; simp [h]
  rw [hkey]
  exact hwf q hq

theorem addEvo_updateNode (s : MatcherState) (j : Nat) (f : MatcherNode → MatcherNode)
    (hf : ∀ nd, (f nd).record = nd.record)
    (hfp : ∀ nd, (f nd).parent = nd.parent) : AddEvo s (updateNode s j f) := by
  refine ⟨Nat.le_refl _, ?_, ?_, ?_⟩
  · intro i _
    exact recordAt_updateNode s j f hf i
  · intro i _
    exact parentAt_updateNode s j f hfp i
  · intro i hi
    exact Or.inl hi

theorem addEvo_removeRouteByName (s : MatcherState) (nm : String) :
    AddEvo s (removeRouteByName s nm) := by
  obtain ⟨h1, h2, h3⟩ := removeRouteByName_arena s nm
  refine ⟨Nat.le_of_eq h2.symm, ?_, ?_, ?_⟩
  · intro i _
    exact recordAt_eq_of_nodes_eq h1 i
  · intro i _
    exact parentAt_eq_of_nodes_eq h1 i
  · intro i hi
    left
    have : List.Sublist (removeRouteByName s nm).matchers s.matchers := by
      unfold removeRouteByName
      cases h : aGet s.matcherMap nm with
      | none => exact List.Sublist.refl _
      | some j =>
          exact ((removeFold_sublist _ _ _).trans
            (removeFold_sublist _ _ _)).trans (spliceIndexOf_sublist s.matchers j)
    exact this.subset hi

theorem nodesWf_removeRouteByName (s : MatcherState) (nm : String) (hwf : NodesWf s) :
    NodesWf (removeRouteByName s nm) := by
  obtain ⟨h1, h2, _⟩ := removeRouteByName_arena s nm
  intro p hp
  rw [h2]
  exact hwf p (h1 ▸ hp)

theorem insertMatcher_arena (s : MatcherState) (id : Nat) :
    (insertMatcher s id).nodes = s.nodes ∧ (insertMatcher s id).nextId = s.nextId := by
  unfold insertMatcher
  dsimp only
  split
  · split <;> exact ⟨rfl, rfl⟩
  · exact ⟨rfl, rfl⟩

theorem nodesWf_insertMatcher (s : MatcherState) (id : Nat) (hwf : NodesWf s) :
    NodesWf (insertMatcher s id) := by
  obtain ⟨h1, h2⟩ := insertMatcher_arena s id
  intro p hp
  rw [h2]
  exact hwf p (h1 ▸ hp)

theorem addEvo_insertMatcher (base t : MatcherState) (id : Nat)
    (hevo : AddEvo base t) (hlo : base.nextId ≤ id) (hhi : id < t.nextId)
    (hrec : ∃ r, recordAt t id = some r ∧ displayable r = true) :
    AddEvo base (insertMatcher t id) := by
  obtain ⟨hn, hr, hp, hm⟩ := hevo
  obtain ⟨hnodes, hnext⟩ := insertMatcher_arena t id
  refine ⟨hn.trans (Nat.le_of_eq hnext.symm), ?_, ?_, ?_⟩
  · intro i hi
    exact (recordAt_eq_of_nodes_eq hnodes i).trans (hr i hi)
  · intro i hi
    exact (parentAt_eq_of_nodes_eq hnodes i).trans (hp i hi)
  · intro i hi
    rw [insertMatcher_matchers] at hi
    rcases mem_insertAt _ _ _ _ hi with he | hmem
    · subst he
      obtain ⟨r, hrc, hdisp⟩ := hrec
      exact Or.inr ⟨hlo, Nat.lt_of_lt_of_le hhi (Nat.le_of_eq hnext.symm),
        r, (recordAt_eq_of_nodes_eq hnodes _).trans hrc, hdisp⟩
    · rcases hm i hmem with h | ⟨hlo2, hhi2, r, hrc, hdisp⟩
      · exact Or.inl h
      · exact Or.inr ⟨hlo2, Nat.lt_of_lt_of_le hhi2 (Nat.le_of_eq hnext.symm),
          r, (recordAt_eq_of_nodes_eq hnodes _).trans hrc, hdisp⟩

theorem foldl_state_inv {β : Type} (f : MatcherState → β → MatcherState)
    (hstep : ∀ st b, NodesWf st → NodesWf (f st b) ∧ AddEvo st (f st b)) :
    ∀ (l : List β) (st : MatcherState), NodesWf st →
      NodesWf (l.foldl f st) ∧ AddEvo st (l.foldl f st) := by
  intro l
  induction l with
  | nil => intro st h; exact ⟨h, addEvo_refl st⟩
  | cons b bs ih =>
      intro st h
      rw [List.foldl_cons]
      obtain ⟨h1, h2⟩ := hstep st b h
      obtain ⟨h3, h4⟩ := ih (f st b) h1
      exact ⟨h3, addEvo_trans h2 h4⟩

theorem nodesWf_pushChild (s : MatcherState) (a b : Nat) (hwf : NodesWf s) :
    NodesWf (pushChild s a b) := by
  unfold pushChild
  exact nodesWf_updateNode s a _ hwf

theorem nodesWf_pushAlias (s : MatcherState) (a b : Nat) (hwf : NodesWf s) :
    NodesWf (pushAlias s a b) := by
  unfold pushAlias
  exact nodesWf_updateNode s a _ hwf

theorem addEvo_pushChild (s : MatcherState) (a b : Nat) : AddEvo s (pushChild s a b) := by
  unfold pushChild
  exact addEvo_updateNode s a _ (fun _ => rfl) (fun _ => rfl)

theorem addEvo_pushAlias (s : MatcherState) (a b : Nat) : AddEvo s (pushAlias s a b) := by
  unfold pushAlias
  exact addEvo_updateNode s a _ (fun _ => rfl) (fun _ => rfl)

theorem addRoute_tail_evo
    (go : MatcherState → RouteRecordRaw → Option Nat → Option Nat →
      MatcherState × Option Nat)
    (hgo : ∀ st rec pId oId, NodesWf st →
      NodesWf (go st rec pId oId).1 ∧ AddEvo st (go st rec pId oId).1)
    (base t1 t3 : MatcherState) (id : Nat) (nr : RouteRecordNorm)
    (chl : List (Nat × RouteRecordRaw)) (origRec : Option Nat)
    (hwf3 : NodesWf t3) (hevo_b1 : AddEvo base t1) (hevo_13 : AddEvo t1 t3)
    (hlo : base.nextId ≤ id) (hhi : id < t1.nextId)
    (hrec1 : recordAt t1 id = some nr) :
    NodesWf
      (if displayable nr then
        insertMatcher
          (chl.foldl
            (fun st pr =>
              (go st pr.2 (some id)
                (origRec.bind (fun o => (getNodeD st o).children.get? pr.1))).1)
            t3) id
       else
        chl.foldl
          (fun st pr =>
            (go st pr.2 (some id)
              (origRec.bind (fun o => (getNodeD st o).children.get? pr.1))).1)
          t3) ∧
    AddEvo base
      (if displayable nr then
        insertMatcher
          (chl.foldl
            (fun st pr =>
              (go st pr.2 (some id)
                (origRec.bind (fun o => (getNodeD st o).children.get? pr.1))).1)
            t3) id
       else
        chl.foldl
          (fun st pr =>
            (go st pr.2 (some id)
              (origRec.bind (fun o => (getNodeD st o).children.get? pr.1))).1)
          t3) := by
  have hfold := foldl_state_inv
    (fun st pr =>
      (go st pr.2 (some id)
        (origRec.bind (fun o => (getNodeD st o).children.get? pr.1))).1)
    (fun st pr h =>
      hgo st pr.2 (some id) (origRec.bind (fun o => (getNodeD st o).children.get? pr.1)) h)
    chl t3 hwf3
  obtain ⟨hwf4, hevo34⟩ := hfold
  have hevo_b3 : AddEvo base t3 := addEvo_trans hevo_b1 hevo_13
  have hevo_b4 := addEvo_trans hevo_b3 hevo34
  have hevo_14 := addEvo_trans hevo_13 hevo34
  have hrec4 := (hevo_14.2.1 id hhi).trans hrec1
  split
  · rename_i hdisp
    refine ⟨nodesWf_insertMatcher _ _ hwf4,
      addEvo_insertMatcher base _ id hevo_b4 hlo ?_ ⟨nr, hrec4, hdisp⟩⟩
    exact Nat.lt_of_lt_of_le hhi (hevo_13.1.trans hevo34.1)
  · exact ⟨hwf4, hevo_b4⟩

theorem resThree_evo (t1 s2 : MatcherState) (om id : Nat) (b1 b2 : Bool) (nm : String)
    (hwf2 : NodesWf s2) (hevo2 : AddEvo t1 s2) :
    NodesWf
      (if (b1 && b2 && ! isAliasRecordB (if om ≠ id then pushAlias s2 om id else s2) id) = true
       then removeRouteByName (if om ≠ id then pushAlias s2 om id else s2) nm
       else (if om ≠ id then pushAlias s2 om id else s2)) ∧
    AddEvo t1
      (if (b1 && b2 && ! isAliasRecordB (if om ≠ id then pushAlias s2 om id else s2) id) = true
       then removeRouteByName (if om ≠ id then pushAlias s2 om id else s2) nm
       else (if om ≠ id then pushAlias s2 om id else s2)) := by
  split
  · have h2a : NodesWf (pushAlias s2 om id) ∧ AddEvo t1 (pushAlias s2 om id) :=
      ⟨nodesWf_pushAlias _ _ _ hwf2, addEvo_trans hevo2 (addEvo_pushAlias _ _ _)⟩
    split
    · exact ⟨nodesWf_removeRouteByName _ _ h2a.1,
        addEvo_trans h2a.2 (addEvo_removeRouteByName _ _)⟩
    · exact h2a
  · split
    · exact ⟨nodesWf_removeRouteByName _ _ hwf2,
        addEvo_trans hevo2 (addEvo_removeRouteByName _ _)⟩
    · exact ⟨hwf2, hevo2⟩

theorem addRouteStep_evo
    (go : MatcherState → RouteRecordRaw → Option Nat → Option Nat →
      MatcherState × Option Nat)
    (hgo : ∀ st rec pId oId, NodesWf st →
      NodesWf (go st rec pId oId).1 ∧ AddEvo st (go st rec pId oId).1)
    (record : RouteRecordRaw) (parentId originalId : Option Nat)
    (isRootAdd : Bool) (main : RouteRecordNorm) (opts : PathOpts)
    (base : MatcherState)
    (acc : MatcherState × Option Nat × Option Nat) (item : Option String)
    (hwf : NodesWf acc.1) (hevo : AddEvo base acc.1) :
    NodesWf (addRouteStep go record parentId originalId isRootAdd main opts acc item).1 ∧
    AddEvo base
      (addRouteStep go record parentId originalId isRootAdd main opts acc item).1 := by
  obtain ⟨t, origRec, origMatcher⟩ := acc
  dsimp only [addRouteStep] at hwf hevo ⊢
  generalize (match item with
    | none => main
    | some a =>
        { main with
          path := a
          aliasOf := some (originalId.getD (origRec.getD 0))
          components :=
            match originalId with
            | some o => (getNodeD t o).record.components
            | none => main.components } : RouteRecordNorm) = nr0
  generalize (match parentId with
    | some pid => resolveChildPath (getNodeD t pid).record.path nr0.path
    | none => nr0.path) = pth
  have hwf1 : NodesWf (addNode t (mkNode { nr0 with path := pth } parentId opts)) :=
    nodesWf_addNode t _ hwf
  have hevo1 : AddEvo base (addNode t (mkNode { nr0 with path := pth } parentId opts)) :=
    addEvo_trans hevo (addEvo_addNode t _)
  have hrec1 : recordAt (addNode t (mkNode { nr0 with path := pth } parentId opts))
      t.nextId = some { nr0 with path := pth } :=
    recordAt_addNode_self t _ hwf
  have hlo : base.nextId ≤ t.nextId := hevo.1
  have hhi : t.nextId < (addNode t (mkNode { nr0 with path := pth } parentId opts)).nextId :=
    Nat.lt_succ_self _
  set t1 := addNode t (mkNode { nr0 with path := pth } parentId opts) with ht1
  cases parentId with
  | none =>
      dsimp only
      cases origRec with
      | some o =>
          dsimp only
          exact addRoute_tail_evo go hgo base t1 (pushAlias t1 o t.nextId) t.nextId _
            record.children.enum (some o)
            (nodesWf_pushAlias t1 o t.nextId hwf1)
            hevo1 (addEvo_pushAlias t1 o t.nextId) hlo hhi hrec1
      | none =>
          dsimp only
          have h3 := resThree_evo t1 t1 (origMatcher.getD t.nextId) t.nextId
            isRootAdd record.name.isSome (record.name.getD "") hwf1 (addEvo_refl t1)
          exact addRoute_tail_evo go hgo base t1 _ t.nextId _
            record.children.enum none h3.1 hevo1 h3.2 hlo hhi hrec1
  | some pid =>
      dsimp only
      have hwf2 : NodesWf (pushChild t1 pid t.nextId) :=
        nodesWf_pushChild t1 pid t.nextId hwf1
      have hevo12 : AddEvo t1 (pushChild t1 pid t.nextId) := addEvo_pushChild t1 pid t.nextId
      cases origRec with
      | some o =>
          dsimp only
          exact addRoute_tail_evo go hgo base t1
            (pushAlias (pushChild t1 pid t.nextId) o t.nextId) t.nextId _
            record.children.enum (some o)
            (nodesWf_pushAlias _ o t.nextId hwf2)
            hevo1 (addEvo_trans hevo12 (addEvo_pushAlias _ o t.nextId)) hlo hhi hrec1
      | none =>
          dsimp only
          have h3 := resThree_evo t1 (pushChild t1 pid t.nextId)
            (origMatcher.getD t.nextId) t.nextId
            isRootAdd record.name.isSome (record.name.getD "") hwf2 hevo12
          exact addRoute_tail_evo go hgo base t1 _ t.nextId _
            record.children.enum none h3.1 hevo1 h3.2 hlo hhi hrec1

theorem addRouteF_evo : ∀ (fuel : Nat) (s : MatcherState) (record : RouteRecordRaw)
    (parentId originalId : Option Nat),
    NodesWf s →
    NodesWf (addRouteF fuel s record parentId originalId).1 ∧
    AddEvo s (addRouteF fuel s record parentId originalId).1 := by
  intro fuel
  induction fuel with
  | zero => intro s record pId oId hwf; exact ⟨hwf, addEvo_refl s⟩
  | succ f ih =>
      intro s record pId oId hwf
      simp only [addRouteF]
      have hfold : ∀ (l : List (Option String))
          (acc : MatcherState × Option Nat × Option Nat),
          NodesWf acc.1 → AddEvo s acc.1 →
          NodesWf ((l.foldl
            (addRouteStep (fun st rec pId2 oId2 => addRouteF f st rec pId2 oId2)
              record pId oId oId.isNone
              { normalizeRouteRecord record with aliasOf := oId }
              (mergeRecordOpts s.gOpts record)) acc).1) ∧
          AddEvo s ((l.foldl
            (addRouteStep (fun st rec pId2 oId2 => addRouteF f st rec pId2 oId2)
              record pId oId oId.isNone
              { normalizeRouteRecord record with aliasOf := oId }
              (mergeRecordOpts s.gOpts record)) acc).1) := by
        intro l
        induction l with
        | nil => intro acc h1 h2; exact ⟨h1, h2⟩
        | cons b bs ihl =>
            intro acc h1 h2
            rw [List.foldl_cons]
            obtain ⟨g1, g2⟩ := addRouteStep_evo _
              (fun st rec pId2 oId2 h => ih st rec pId2 oId2 h)
              record pId oId oId.isNone
              { normalizeRouteRecord record with aliasOf := oId }
              (mergeRecordOpts s.gOpts record) s acc b h1 h2
            exact ihl _ g1 g2
      exact hfold _ (s, oId, none) hwf (addEvo_refl s)

theorem removeRouteByName_matchers_sub (s : MatcherState) (nm : String) :
    List.Sublist (removeRouteByName s nm).matchers s.matchers := by
  unfold removeRouteByName
  cases h : aGet s.matcherMap nm with
  | none => exact List.Sublist.refl _
  | some i =>
      exact (removeFold_sublist s.nextId (getNodeD s i).aliases _).trans
        ((removeFold_sublist s.nextId (getNodeD s i).children _).trans
          (spliceIndexOf_sublist s.matchers i))

theorem addRoute_childless_mem (s : MatcherState) (path : String) (nm : Option String)
    (comp : Option Nat) (comps : Option (List (String × Nat))) (redir : Option String)
    (meta : MetaMap) (stO seO enO : Option Bool)
    (hNodes : ∀ p ∈ s.nodes, p.1 < s.nextId)
    (hmt : ∀ j ∈ s.matchers, j < s.nextId) :
    (s.nextId ∈
        ((addRoute s (.mk path nm comp comps redir meta none stO seO enO [])
          none).1).matchers ↔
      displayable (normalizeRouteRecord
        (.mk path nm comp comps redir meta none stO seO enO [])) = true) := by
  unfold addRoute
  rw [show rawFuel (RouteRecordRaw.mk path nm comp comps redir meta
    none stO seO enO []) = 1 from rfl]
  simp only [addRouteF]
  dsimp only [RouteRecordRaw.aliasPaths, RouteRecordRaw.name, RouteRecordRaw.children,
    Option.getD, Option.isNone, Option.isSome, List.map_nil, List.foldl_cons,
    List.foldl_nil, List.enum_nil]
  dsimp only [addRouteStep, RouteRecordRaw.name, RouteRecordRaw.children,
    Option.getD, Option.isSome, List.enum_nil, List.foldl_nil]
  rw [if_neg (show ¬ (s.nextId ≠ s.nextId) from fun hcon => hcon rfl)]
  rw [isAliasRecordB_addNode_fresh s _ hNodes rfl rfl]
  simp only [Bool.not_false, Bool.and_true, Bool.true_and]
  split
  · rename_i hdisp
    rw [insertMatcher_matchers]
    exact iff_of_true (mem_insertAt_self _ _ _) hdisp
  · rename_i hdisp
    refine iff_of_false ?_ hdisp
    intro hmem
    have hx : s.nextId ∈ s.matchers := by
      revert hmem
      split
      · intro hmem
        have h2 := List.Sublist.subset (removeRouteByName_matchers_sub _ _) hmem
        exact h2
      · intro hmem
        exact hmem
    exact absurd (hmt _ hx) (Nat.lt_irrefl _)

/-- Claim C8: across every run of addRoute (any fuel, any raw record, any
parent and alias origin), a matcher freshly created by the run appears in
the searchable ordered sequence only if its normalized record is
displayable (has view slots, a name, or a redirect): pass-through grouping
nodes are never inserted.  Conversely, for a childless alias-free top-level
definition, the new matcher is inserted exactly when its normalized record
is displayable. -/
theorem claim_c8 :
    (∀ (fuel : Nat) (s : MatcherState) (record : RouteRecordRaw)
       (parentId originalId : Option Nat) (i : Nat),
       NodesWf s → (∀ j ∈ s.matchers, j < s.nextId) →
       s.nextId ≤ i →
       i ∈ (addRouteF fuel s record parentId originalId).1.matchers →
       ∃ r, recordAt (addRouteF fuel s record parentId originalId).1 i = some r ∧
         displayable r = true) ∧
    (∀ (s : MatcherState) (path : String) (nm : Option String) (comp : Option Nat)
       (comps : Option (List (String × Nat))) (redir : Option String)
       (meta : MetaMap) (stO seO enO : Option Bool),
       (∀ p ∈ s.nodes, p.1 < s.nextId) → (∀ j ∈ s.matchers, j < s.nextId) →
       (s.nextId ∈
           ((addRoute s (.mk path nm comp comps redir meta none stO seO enO [])
             none).1).matchers ↔
         displayable (normalizeRouteRecord
           (.mk path nm comp comps redir meta none stO seO enO [])) = true)) := by
  constructor
  · intro fuel s record parentId originalId i hwf hmt hle hmem
    obtain ⟨hwfR, hevo⟩ := addRouteF_evo fuel s record parentId originalId hwf
    rcases hevo.2.2.2 i hmem with hold | ⟨h1, h2, r, hr, hdisp⟩
    · exact absurd (hmt i hold) (Nat.not_lt.mpr hle)
    · exact ⟨r, hr, hdisp⟩
  · intro s path nm comp comps redir meta stO seO enO hwf hmt
    exact addRoute_childless_mem s path nm comp comps redir meta stO seO enO hwf hmt

/-- Claim C8 witness: on the empty registry, a top-level childless record
with a component is inserted into the ordered sequence, and one with no
component, no name and no redirect is not. -/
theorem claim_c8_witness :
    ((0 : Nat) ∈ ((addRoute emptyState
        (RouteRecordRaw.mk "/w" none (some 7) none none [] none none none none [])
        none).1).matchers) ∧
    ((0 : Nat) ∉ ((addRoute emptyState
        (RouteRecordRaw.mk "/g" none none none none [] none none none none [])
        none).1).matchers) := by
  constructor
  · exact (claim_c8.2 emptyState "/w" none (some 7) none none [] none none none
      (by intro p hp; cases hp) (by intro j hj; cases hj)).mpr (by decide)
  · intro hmem
    exact absurd ((claim_c8.2 emptyState "/g" none none none none [] none none none
      (by intro p hp; cases hp) (by intro j hj; cases hj)).mp hmem) (by decide)

end ClaimC8

section ClaimC4General

theorem addRoute_named_eq (s : MatcherState) (path n : String) (comp : Option Nat)
    (comps : Option (List (String × Nat))) (redir : Option String) (meta : MetaMap)
    (stO seO enO : Option Bool) (chl : List RouteRecordRaw)
    (hNodes : ∀ p ∈ s.nodes, p.1 < s.nextId) :
    addRoute s (.mk path (some n) comp comps redir meta none stO seO enO chl) none =
      (insertMatcher
        (List.foldl
          (fun st pr => (addRouteF (rawFuelL chl) st pr.2 (some s.nextId) none).1)
          (removeRouteByName
            (addNode s
              (mkNode
                (normalizeRouteRecord
                  (.mk path (some n) comp comps redir meta none stO seO enO chl))
                none
                (mergeRecordOpts s.gOpts
                  (.mk path (some n) comp comps redir meta none stO seO enO chl))))
            n)
          chl.enum)
        s.nextId,
       some s.nextId) := by
  have hd : ∀ (r : RouteRecordNorm), r.name = some n → displayable r = true := by
    intro r h
    simp [displayable, h]
  unfold addRoute
  rw [show rawFuel (RouteRecordRaw.mk path (some n) comp comps redir meta
    none stO seO enO chl) = rawFuelL chl + 1 from rfl]
  simp only [addRouteF]
  dsimp only [RouteRecordRaw.aliasPaths, RouteRecordRaw.name, RouteRecordRaw.children,
    Option.getD, Option.isNone, Option.isSome, List.map_nil, List.foldl_cons,
    List.foldl_nil]
  dsimp only [addRouteStep, RouteRecordRaw.name, RouteRecordRaw.children,
    Option.getD, Option.isSome]
  rw [if_neg (show ¬ (s.nextId ≠ s.nextId) from fun hcon => hcon rfl)]
  rw [isAliasRecordB_addNode_fresh s _ hNodes rfl rfl]
  simp only [Bool.and_true, Bool.and_self, Bool.not_false, if_pos rfl]
  rw [if_pos (hd _ rfl)]
  rfl

/-- Claim C4 (amended): a top-level addRoute of a named non-alias
definition (any nesting of children; the definition itself carries no
alias paths) over an arbitrary well-formed registry first removes any
previously registered matcher under that name from the ordered sequence
and the name table, together with those of its children and aliases
present in the ordered sequence (recursively — the removal does not
descend through matchers absent from the sequence, so descendants
reachable only through pass-through nodes survive, see the
counterexample); the replacement is not an error; afterwards the name maps
to the newly added matcher, which is present in the ordered sequence, so
exactly that matcher is reachable under the name. -/
theorem claim_c4_amended :
    ∀ (s : MatcherState) (path n : String) (comp : Option Nat)
      (comps : Option (List (String × Nat))) (redir : Option String)
      (meta : MetaMap) (stO seO enO : Option Bool) (chl : List RouteRecordRaw),
      (∀ p ∈ s.nodes, p.1 < s.nextId) →
      aGet ((addRoute s (.mk path (some n) comp comps redir meta none stO seO enO chl)
          none).1).matcherMap n = some s.nextId ∧
      s.nextId ∈
        ((addRoute s (.mk path (some n) comp comps redir meta none stO seO enO chl)
          none).1).matchers ∧
      (∀ oldId, aGet s.matcherMap n = some oldId → oldId < s.nextId →
        s.matchers.count oldId ≤ 1 →
        oldId ∉
          ((addRoute s (.mk path (some n) comp comps redir meta none stO seO enO chl)
            none).1).matchers) ∧
      (∀ oldId c, aGet s.matcherMap n = some oldId → oldId < s.nextId →
        c ∈ (getNodeD s oldId).children ++ (getNodeD s oldId).aliases →
        c < s.nextId → s.matchers.count c ≤ 1 →
        c ∉
          ((addRoute s (.mk path (some n) comp comps redir meta none stO seO enO chl)
            none).1).matchers) := by
  intro s path n comp comps redir meta stO seO enO chl hNodes
  rw [addRoute_named_eq s path n comp comps redir meta stO seO enO chl hNodes]
  dsimp only
  set node := mkNode
      (normalizeRouteRecord
        (.mk path (some n) comp comps redir meta none stO seO enO chl))
      none
      (mergeRecordOpts s.gOpts
        (.mk path (some n) comp comps redir meta none stO seO enO chl)) with hnodeDef
  set sRem := removeRouteByName (addNode s node) n with hsRem
  set S4 := List.foldl
      (fun st pr => (addRouteF (rawFuelL chl) st pr.2 (some s.nextId) none).1)
      sRem chl.enum with hS4
  have hwf1 : NodesWf (addNode s node) := nodesWf_addNode s node hNodes
  have hwf3 : NodesWf sRem := by
    rw [hsRem]
    exact nodesWf_removeRouteByName _ n hwf1
  have hfold := foldl_state_inv
      (fun st pr => (addRouteF (rawFuelL chl) st pr.2 (some s.nextId) none).1)
      (fun st pr h => addRouteF_evo (rawFuelL chl) st pr.2 (some s.nextId) none h)
      chl.enum sRem hwf3
  rw [← hS4] at hfold
  obtain ⟨hwf4, hevo34⟩ := hfold
  have harena := removeRouteByName_arena (addNode s node) n
  have hnext3 : sRem.nextId = s.nextId + 1 := by
    rw [hsRem]
    exact harena.2.1
  have hlt3 : s.nextId < sRem.nextId := by
    rw [hnext3]
    exact Nat.lt_succ_self _
  have hrec3 : recordAt sRem s.nextId = some node.record := by
    rw [hsRem]
    rw [recordAt_eq_of_nodes_eq harena.1]
    exact recordAt_addNode_self s node hNodes
  have hpar3 : parentAt sRem s.nextId = some none := by
    rw [hsRem]
    rw [parentAt_eq_of_nodes_eq harena.1]
    unfold parentAt
    rw [getNode_addNode_self s node hNodes, hnodeDef]
    rfl
  have hrec4 : recordAt S4 s.nextId = some node.record :=
    (hevo34.2.1 s.nextId hlt3).trans hrec3
  have hpar4 : parentAt S4 s.nextId = some none :=
    (hevo34.2.2.1 s.nextId hlt3).trans hpar3
  have hrec4m : (getNode S4 s.nextId).map (fun nd => nd.record) = some node.record :=
    hrec4
  obtain ⟨node4, hg4, hrec4eq⟩ := Option.map_eq_some'.mp hrec4m
  have hpar4n : node4.parent = none := by
    have h := hpar4
    unfold parentAt at h
    rw [hg4] at h
    simpa using h
  have halias4 : node4.record.aliasOf = none := by
    rw [hrec4eq, hnodeDef]
    rfl
  have hpos4 : s.nextId + 1 ≤ S4.nextId := by
    rw [← hnext3]
    exact hevo34.1
  refine ⟨?_, ?_, ?_, ?_⟩
  · unfold insertMatcher
    dsimp only
    have hname2 : (getNodeD
        { S4 with
          matchers := insertAt (insertIdxAux S4 s.nextId S4.matchers)
            s.nextId S4.matchers } s.nextId).record.name = some n := by
      show ((getNode S4 s.nextId).getD defaultNode).record.name = some n
      rw [hg4, Option.getD_some, hrec4eq, hnodeDef]
      rfl
    rw [hname2]
    have hgs1 : getNode
        { S4 with
          matchers := insertAt (insertIdxAux S4 s.nextId S4.matchers)
            s.nextId S4.matchers } s.nextId = some node4 := hg4
    have hnx1 : ({ S4 with
        matchers := insertAt (insertIdxAux S4 s.nextId S4.matchers)
          s.nextId S4.matchers } : MatcherState).nextId = (S4.nextId - 1) + 1 := by
      show S4.nextId = (S4.nextId - 1) + 1
      omega
    have halias2 : isAliasRecordB
        { S4 with
          matchers := insertAt (insertIdxAux S4 s.nextId S4.matchers)
            s.nextId S4.matchers } s.nextId = false :=
      isAliasRecordB_root _ s.nextId (S4.nextId - 1) node4 hgs1 hnx1 hpar4n halias4
    rw [halias2]
    simp only [Bool.not_false, if_pos rfl]
    exact aGet_aSet_self _ n s.nextId
  · rw [insertMatcher_matchers]
    exact mem_insertAt_self _ _ _
  · intro oldId hold holdlt hcount
    rw [insertMatcher_matchers]
    intro hmem
    rcases mem_insertAt _ _ _ _ hmem with h1 | h1
    · exact absurd h1 (Nat.ne_of_lt holdlt)
    · rcases hevo34.2.2.2 oldId h1 with h2 | ⟨hlo, hrest⟩
      · have holdadd : aGet (addNode s node).matcherMap n = some oldId := hold
        have hcountadd : (addNode s node).matchers.count oldId ≤ 1 := hcount
        rw [hsRem] at h2
        exact removeRouteByName_self_out (addNode s node) n oldId holdadd hcountadd h2
      · rw [hnext3] at hlo
        omega
  · intro oldId c hold holdlt hcmem hclt hcount
    rw [insertMatcher_matchers]
    intro hmem
    rcases mem_insertAt _ _ _ _ hmem with h1 | h1
    · exact absurd h1 (Nat.ne_of_lt hclt)
    · rcases hevo34.2.2.2 c h1 with h2 | ⟨hlo, hrest⟩
      · have holdadd : aGet (addNode s node).matcherMap n = some oldId := hold
        have hcountadd : (addNode s node).matchers.count c ≤ 1 := hcount
        have hgd : getNodeD (addNode s node) oldId = getNodeD s oldId := by
          unfold getNodeD
          rw [getNode_addNode_ne s node oldId (Nat.ne_of_lt holdlt)]
        have hcmem2 : c ∈ (getNodeD (addNode s node) oldId).children ++
            (getNodeD (addNode s node) oldId).aliases := by
          rw [hgd]
          exact hcmem
        rw [hsRem] at h2
        exact removeRouteByName_depth1_out (addNode s node) n oldId c s.nextId
          holdadd rfl hcmem2 hcountadd h2
      · rw [hnext3] at hlo
        omega

/-- Witness for claim C4 (amended): on the registry sD the name d maps to
matcher 0 whose child 1 carries a view slot and is present in the ordered
sequence; the top-level re-registration of the name d (registry sD2) maps
the name to the fresh matcher 2, inserts 2 into the ordered sequence, and
removes both the old matcher 0 and its sequence-present child 1 from it. -/
theorem claim_c4_witness :
    aGet sD.matcherMap "d" = some 0 ∧
    (1 : Nat) ∈ (getNodeD sD 0).children ∧
    (1 : Nat) ∈ sD.matchers ∧
    aGet sD2.matcherMap "d" = some 2 ∧
    (2 : Nat) ∈ sD2.matchers ∧
    (0 : Nat) ∉ sD2.matchers ∧
    (1 : Nat) ∉ sD2.matchers := by
  have h := claim_c4_amended sD "/d2" "d" (some 3) none none [] none none none []
    (by decide)
  exact ⟨by decide, by decide, by decide, h.1, h.2.1,
    h.2.2.1 0 (by decide) (by decide) (by decide),
    h.2.2.2 0 1 (by decide) (by decide) (by decide) (by decide) (by decide)⟩

end ClaimC4General

end VueRouterRV
